import Mathlib

/-!
Verification of the DiscountCart price monitor.

This file gives a shallow embedding of the core operations of the
repository (price-string parsing in the scrapers and in
`utils/helpers.py`, URL validation and the scrape-orchestrator guard,
the price-history statistics engine and deal classifier of
`services/product_service.py`, and the lowest/highest price update of
`update_product_price`), and proves or refutes the specified properties
of those operations.

Conventions of the embedding:
* Python strings are modelled as `List Char`.
* `decimal.Decimal` values are modelled as `ℚ`; `Decimal(s)` applied to
  a string of digits and separators is modelled by `decimalOfChars`,
  factored through `decimalParts` (digit value and number of fractional
  digits) so that concrete runs are decidable.
* Python floats are modelled as exact rational/real arithmetic; the
  statistics of interest (mean, variance) stay in `ℚ` until the square
  root, which is `Real.sqrt`.
* Python `round(x, 2)` is modelled as round-half-up to 2 decimals
  (`round2Q` / `round2R`); half-way ties, where Python's float
  rounding could differ, do not occur in any input considered.
-/

/-- Characters kept by the scrapers' cleaning step
`re.sub(r'[^\d.,]', '', price_text)`: digits, dot, comma. -/
def isPriceChar (c : Char) : Bool := c.isDigit || c == '.' || c == ','

/-- Numeric value of a digit character. -/
def digitVal (c : Char) : ℕ := c.toNat - 48

/-- Value of a digit string read in base 10 (0 for the empty string). -/
def natOfDigits (l : List Char) : ℕ := l.foldl (fun n c => 10 * n + digitVal c) 0

/-- First stage of the model of Python `Decimal(s)` on the strings that
reach it in the parsers: for an optional run of digits, an optional
single dot and an optional further run of digits, with at least one
digit in total, return the concatenated digit value and the number of
digits after the dot. Everything else (a comma, several dots, a
non-digit character) raises `InvalidOperation` in Python, modelled as
`none`. -/
def decimalParts (l : List Char) : Option (ℕ × ℕ) :=
  if l.any (· == ',') then none
  else if l.count '.' == 0 then
    if !l.isEmpty && l.all Char.isDigit then some (natOfDigits l, 0) else none
  else if l.count '.' == 1 then
    let b := l.takeWhile (fun c => c != '.')
    let a := (l.dropWhile (fun c => c != '.')).tail
    if !(b ++ a).isEmpty && (b ++ a).all Char.isDigit then
      some (natOfDigits (b ++ a), a.length)
    else none
  else none

/-- Value of a `decimalParts` result: `digits / 10 ^ fractionalDigits`. -/
def partsVal (p : ℕ × ℕ) : ℚ := (p.1 : ℚ) / 10 ^ p.2

/-- Model of Python `Decimal(s)` itself. -/
def decimalOfChars (l : List Char) : Option ℚ := (decimalParts l).map partsVal

/-- Python `s.replace('.', '')`. -/
def removeDots (l : List Char) : List Char := l.filter (fun c => c != '.')

/-- Python `s.replace(',', '')`. -/
def removeCommas (l : List Char) : List Char := l.filter (fun c => c != ',')

/-- Python `s.replace(',', '.')`. -/
def commaToDot (l : List Char) : List Char := l.map (fun c => if c == ',' then '.' else c)

/-- Python `parts = s.split('.')` restricted to the case
`len(parts) == 2`, i.e. exactly one dot: the part before and the part
after the dot. -/
def splitDotParts (l : List Char) : Option (List Char × List Char) :=
  if l.count '.' == 1 then
    some (l.takeWhile (fun c => c != '.'), (l.dropWhile (fun c => c != '.')).tail)
  else none

/-- The string-rewriting stage of `AmazonScraper._parse_price`
(src/scraper/amazon_scraper.py, lines 89-134): clean to
digits/dot/comma (`none` when nothing remains); both separators →
Brazilian format (strip dots, comma becomes the decimal dot); comma
only → comma becomes dot, then a 3-digit fractional part with a
≤3-digit integer part is a mangled decimal, truncated to 2 digits; dot
only → 2 digits after the dot is a decimal, 3 digits after the dot is a
mangled decimal when the integer part has ≤3 digits and a thousands
separator otherwise. -/
def amazonNormalize (priceText : List Char) : Option (List Char) :=
  let t := priceText.filter isPriceChar
  if t.isEmpty then none else some (
    if t.any (· == ',') && t.any (· == '.') then commaToDot (removeDots t)
    else if t.any (· == ',') then
      let u := commaToDot t
      if u.any (· == '.') then
        match splitDotParts u with
        | some (b, a) =>
          if a.length == 3 && decide (b.length ≤ 3) then b ++ '.' :: a.take 2 else u
        | none => u
      else u
    else if t.any (· == '.') then
      match splitDotParts t with
      | some (b, a) =>
        if a.length == 2 then t
        else if a.length == 3 && decide (b.length ≤ 3) then b ++ '.' :: a.take 2
        else if a.length == 3 then removeDots t
        else t
      | none => t
    else t)

/-- `AmazonScraper._parse_price`, digit/scale stage. -/
def amazonParseParts (priceText : List Char) : Option (ℕ × ℕ) :=
  (amazonNormalize priceText).bind decimalParts

/-- `AmazonScraper._parse_price` (src/scraper/amazon_scraper.py, lines
89-140): the normalization stage followed by `Decimal`. -/
def amazonParsePrice (priceText : List Char) : Option ℚ :=
  (amazonParseParts priceText).map partsVal

/-- The string-rewriting stage of `ZaffariScraper._parse_price`
(src/scraper/zaffari_scraper.py, lines 92-120): both separators →
Brazilian format; comma only → comma becomes dot; dot only → a single
dot with exactly 3 digits after it is treated as a thousands separator
and stripped, regardless of the integer part (no mangled-decimal
case). -/
def zaffariNormalize (priceText : List Char) : Option (List Char) :=
  let t := priceText.filter isPriceChar
  if t.isEmpty then none else some (
    if t.any (· == ',') && t.any (· == '.') then commaToDot (removeDots t)
    else if t.any (· == ',') then commaToDot t
    else if t.any (· == '.') then
      match splitDotParts t with
      | some (_, a) => if a.length == 3 then removeDots t else t
      | none => t
    else t)

/-- `ZaffariScraper._parse_price`, digit/scale stage. -/
def zaffariParseParts (priceText : List Char) : Option (ℕ × ℕ) :=
  (zaffariNormalize priceText).bind decimalParts

/-- `ZaffariScraper._parse_price` (src/scraper/zaffari_scraper.py, lines
92-124). -/
def zaffariParsePrice (priceText : List Char) : Option ℚ :=
  (zaffariParseParts priceText).map partsVal

/-- The string-rewriting stage of `CarrefourScraper._parse_price`
(src/scraper/carrefour_scraper.py, lines 107-126): same algorithm as
the Zaffari parser. -/
def carrefourNormalize (priceText : List Char) : Option (List Char) :=
  let t := priceText.filter isPriceChar
  if t.isEmpty then none else some (
    if t.any (· == ',') && t.any (· == '.') then commaToDot (removeDots t)
    else if t.any (· == ',') then commaToDot t
    else if t.any (· == '.') then
      match splitDotParts t with
      | some (_, a) => if a.length == 3 then removeDots t else t
      | none => t
    else t)

/-- `CarrefourScraper._parse_price`, digit/scale stage. -/
def carrefourParseParts (priceText : List Char) : Option (ℕ × ℕ) :=
  (carrefourNormalize priceText).bind decimalParts

/-- `CarrefourScraper._parse_price` (src/scraper/carrefour_scraper.py,
lines 107-130). -/
def carrefourParsePrice (priceText : List Char) : Option ℚ :=
  (carrefourParseParts priceText).map partsVal

/-- Python `s.strip()`: drop whitespace from both ends. -/
def stripChars (l : List Char) : List Char :=
  ((l.dropWhile Char.isWhitespace).reverse.dropWhile Char.isWhitespace).reverse

/-- Python `s.rfind(ch)`: index of the last occurrence, `-1` if absent. -/
def rfindPos (ch : Char) (l : List Char) : ℤ :=
  if l.any (· == ch) then (l.length : ℤ) - 1 - (l.reverse.findIdx (· == ch) : ℤ) else -1

/-- The cleaning and string-rewriting stage of `parse_price`
(src/utils/helpers.py, lines 11-52): strip whitespace and remove `R`,
`$` and spaces; reject an empty result or one starting with a
separator; with both separators present, the one whose last occurrence
comes later in the string is the decimal separator and the other is
removed; with only a comma, the comma becomes the decimal dot; a lone
dot is left untouched. -/
def helpersNormalize (s : List Char) : Option (List Char) :=
  if s.isEmpty then none else
  let cleaned := (stripChars s).filter (fun c => c != 'R' && c != '$' && c != ' ')
  if cleaned.isEmpty then none
  else if cleaned.head? == some ',' || cleaned.head? == some '.' then none
  else some (
    if cleaned.any (· == ',') && cleaned.any (· == '.') then
      if rfindPos ',' cleaned > rfindPos '.' cleaned then commaToDot (removeDots cleaned)
      else removeCommas cleaned
    else if cleaned.any (· == ',') then commaToDot cleaned
    else cleaned)

/-- `parse_price` of src/utils/helpers.py, digit/scale stage. -/
def helpersParseParts (s : List Char) : Option (ℕ × ℕ) :=
  (helpersNormalize s).bind decimalParts

/-- `parse_price` (src/utils/helpers.py, lines 11-56). -/
def helpersParsePrice (s : List Char) : Option ℚ :=
  (helpersParseParts s).map partsVal

/-- One row of the `price_history` table, as seen from a statistics
query: the recorded price and its age in days relative to `NOW()`. -/
structure PriceEntry where
  price : ℚ
  daysAgo : ℚ
deriving DecidableEq

/-- `ProductService.get_price_history` (src/services/product_service.py,
lines 267-275): the rows of the trailing `days`-day window
(`recorded_at >= DATE_SUB(NOW(), INTERVAL days DAY)`). -/
def getPriceHistory (history : List PriceEntry) (days : ℚ) : List PriceEntry :=
  history.filter (fun e => decide (e.daysAgo ≤ days))

/-- Arithmetic mean `sum(prices) / len(prices)` of
`ProductService.get_std_deviation` (line 299). -/
def mean (ps : List ℚ) : ℚ := ps.sum / ps.length

/-- Population variance `sum((p - avg) ** 2 for p in prices) / len(prices)`
of `ProductService.get_std_deviation` (line 300). -/
def variance (ps : List ℚ) : ℚ := (ps.map (fun p => (p - mean ps) ^ 2)).sum / ps.length

/-- `std_dev = math.sqrt(variance)` (line 301). -/
noncomputable def stdDev (ps : List ℚ) : ℝ := Real.sqrt ((variance ps : ℚ) : ℝ)

/-- Python `round(x, 2)` on an exact rational value, modelled as
round-half-up to two decimals. -/
def round2Q (x : ℚ) : ℚ := ((round (100 * x) : ℤ) : ℚ) / 100

/-- Python `round(x, 2)` on a real value, modelled as round-half-up to
two decimals. -/
noncomputable def round2R (x : ℝ) : ℝ := ((round (100 * x) : ℤ) : ℝ) / 100

/-- `ProductService.get_std_deviation` (src/services/product_service.py,
lines 289-303): `None` when the window holds fewer than 2 samples, and
otherwise the pair `(round(avg, 2), round(std_dev, 2))`. -/
noncomputable def getStdDeviation (history : List PriceEntry) (days : ℚ) : Option (ℚ × ℝ) :=
  let h := getPriceHistory history days
  if h.length < 2 then none
  else
    let prices := h.map (·.price)
    some (round2Q (mean prices), round2R (stdDev prices))

/-- The slice of a row of the `products` table used by the price
tracking and statistics code. -/
structure Product where
  id : ℕ
  currentPrice : Option ℚ
  lowestPrice : Option ℚ
  highestPrice : Option ℚ
  history : List PriceEntry

/-- Python `x or price` on an optional Decimal: `None` and `0` are both
falsy, so either one falls back to `price`. Used by
`update_product_price` (lines 203-204) and `_update_current_price`
(lines 122-123). -/
def pyDecimalOr (x : Option ℚ) (d : ℚ) : ℚ :=
  match x with
  | some v => if v = 0 then d else v
  | none => d

/-- One entry of the result list of
`ProductService.get_products_below_std_deviation` (lines 328-336). -/
structure DealInfo where
  productId : ℕ
  avgPrice : ℚ
  stdDeviation : ℝ
  threshold : ℝ
  numStdDev : ℕ
  days : ℚ
  diff : ℝ

/-- The body of the product loop of
`ProductService.get_products_below_std_deviation`
(src/services/product_service.py, lines 316-336): skip a product with a
falsy (absent or zero) current price, skip a product whose window
statistics are `None`, compute `threshold = avg_price - std_dev *
num_std_dev` from the returned (rounded) statistics, and keep the
product when `current_price <= threshold`. -/
noncomputable def belowStdDeviation (p : Product) (days : ℚ) (numStd : ℕ) : Option DealInfo :=
  match p.currentPrice with
  | none => none
  | some cp =>
    if cp = 0 then none
    else
      match getStdDeviation p.history days with
      | none => none
      | some (avg, sd) =>
        let threshold : ℝ := (avg : ℝ) - sd * numStd
        if (cp : ℝ) ≤ threshold then
          some ⟨p.id, avg, sd, threshold, numStd, days, threshold - (cp : ℝ)⟩
        else none

/-- `ProductService.get_products_below_std_deviation`
(src/services/product_service.py, lines 305-338), over the active
products in their query order. -/
noncomputable def getProductsBelowStdDeviation
    (products : List Product) (days : ℚ) (numStd : ℕ) : List DealInfo :=
  products.filterMap (fun p => belowStdDeviation p days numStd)

/-- `ProductService.get_all_std_deviation_alerts`
(src/services/product_service.py, lines 340-358): the dictionary keyed
by `std_dev_{num_std}_{days}d`, modelled as an association list keyed by
`(num_std, days)` in insertion order (`days` outer loop over
`[30, 90, 180]`, `num_std` inner loop over `[1, 2]`). -/
noncomputable def getAllStdDeviationAlerts
    (products : List Product) : List ((ℕ × ℚ) × List DealInfo) :=
  [((1, 30), getProductsBelowStdDeviation products 30 1),
   ((2, 30), getProductsBelowStdDeviation products 30 2),
   ((1, 90), getProductsBelowStdDeviation products 90 1),
   ((2, 90), getProductsBelowStdDeviation products 90 2),
   ((1, 180), getProductsBelowStdDeviation products 180 1),
   ((2, 180), getProductsBelowStdDeviation products 180 2)]

/-- One period entry of `ProductService.get_product_std_analysis`
(src/services/product_service.py, lines 375-389). -/
structure PeriodAnalysis where
  avgPrice : ℚ
  stdDeviation : ℝ
  threshold1 : ℝ
  threshold2 : ℝ
  isBelow1Std : Prop
  isBelow2Std : Prop

/-- The body of the period loop of
`ProductService.get_product_std_analysis` (lines 375-391):
`threshold_1 = avg_price - std_dev`, `threshold_2 = avg_price -
std_dev * 2`, and the two inclusive below-threshold flags. -/
noncomputable def analyzePeriod (cp : ℚ) (history : List PriceEntry) (days : ℚ) :
    Option PeriodAnalysis :=
  match getStdDeviation history days with
  | none => none
  | some (avg, sd) =>
    some { avgPrice := avg
           stdDeviation := sd
           threshold1 := (avg : ℝ) - sd
           threshold2 := (avg : ℝ) - sd * 2
           isBelow1Std := (cp : ℝ) ≤ (avg : ℝ) - sd
           isBelow2Std := (cp : ℝ) ≤ (avg : ℝ) - sd * 2 }

/-- `ProductService.get_product_std_analysis`
(src/services/product_service.py, lines 360-393): `None` for a missing
product or falsy current price, otherwise the per-period analyses for
30, 90 and 180 days. -/
noncomputable def getProductStdAnalysis (p : Product) :
    Option (List (ℚ × Option PeriodAnalysis)) :=
  match p.currentPrice with
  | none => none
  | some cp =>
    if cp = 0 then none
    else some (([30, 90, 180] : List ℚ).map (fun d => (d, analyzePeriod cp p.history d)))

/-- The price-bounds update of `ProductService.update_product_price`
(src/services/product_service.py, lines 201-218) (the same arithmetic
as `_update_current_price`, lines 115-133): `new_lowest =
min(product.lowest_price or price, price)`, `new_highest =
max(product.highest_price or price, price)`, write the three price
columns and append the scraped price to the history. -/
def updateProductPrice (p : Product) (price : ℚ) : Product :=
  { p with
    currentPrice := some price
    lowestPrice := some (min (pyDecimalOr p.lowestPrice price) price)
    highestPrice := some (max (pyDecimalOr p.highestPrice price) price)
    history := ⟨price, 0⟩ :: p.history }

/-- The result record of one scrape attempt (the `ScrapedProduct`
dataclass of the Zaffari and Carrefour scrapers). -/
structure ScrapedProduct where
  sku : String
  url : String
  title : Option String
  price : Option ℚ
  originalPrice : Option ℚ
  imageUrl : Option String
  isAvailable : Bool
  error : Option String

/-- The part of a URL after the first `://`, if any (the
authority-plus-path suffix that `urllib.parse.urlparse` splits). -/
def afterSchemeSep : List Char → Option (List Char)
  | [] => none
  | ':' :: '/' :: '/' :: rest => some rest
  | _ :: rest => afterSchemeSep rest

/-- Model of `urlparse(url).netloc` and `urlparse(url).path` for the
URL shapes the validators receive: for `scheme://host/path` the host
and the `/path` suffix; for a URL with no `://` an empty netloc and the
URL itself as path (queries and fragments are not modelled; the
validators only test domain membership and a path substring). -/
def netlocAndPath (url : List Char) : List Char × List Char :=
  match afterSchemeSep url with
  | none => ([], url)
  | some rest => (rest.takeWhile (fun c => c != '/'), rest.dropWhile (fun c => c != '/'))

/-- Whether `pre` is an initial segment of `l` (Python `startswith`). -/
def startsWithChars : List Char → List Char → Bool
  | [], _ => true
  | _ :: _, [] => false
  | p :: ps, c :: cs => p == c && startsWithChars ps cs

/-- Python `sub in s`: substring containment. -/
def hasSubstr (sub : List Char) : List Char → Bool
  | [] => startsWithChars sub []
  | l@(_ :: rest) => startsWithChars sub l || hasSubstr sub rest

/-- `ZaffariScraper.validate_url` (src/scraper/zaffari_scraper.py, lines
78-84): netloc in the Zaffari domain list and `'/p'` in the path. -/
def zaffariValidateUrl (url : String) : Bool :=
  let np := netlocAndPath url.toList
  (np.1 == "www.zaffari.com.br".toList || np.1 == "zaffari.com.br".toList) &&
    hasSubstr "/p".toList np.2

/-- `CarrefourScraper.validate_url` (src/scraper/carrefour_scraper.py,
lines 93-99). -/
def carrefourValidateUrl (url : String) : Bool :=
  let np := netlocAndPath url.toList
  (np.1 == "mercado.carrefour.com.br".toList ||
      np.1 == "www.mercado.carrefour.com.br".toList) &&
    hasSubstr "/p".toList np.2

/-- The hard-failure record returned by `ZaffariScraper.scrape_product`
for an invalid URL (src/scraper/zaffari_scraper.py, lines 278-284). -/
def zaffariHardFailure (url : String) : ScrapedProduct :=
  ⟨"", url, none, none, none, none, false,
    some "URL inválida. Use uma URL de produto do Zaffari (ex: zaffari.com.br/produto-123/p)"⟩

/-- The hard-failure record returned by `CarrefourScraper.scrape_product`
for an invalid URL (src/scraper/carrefour_scraper.py, lines 321-327). -/
def carrefourHardFailure (url : String) : ScrapedProduct :=
  ⟨"", url, none, none, none, none, false,
    some "URL inválida. Use uma URL de produto do Carrefour (ex: mercado.carrefour.com.br/produto-123/p)"⟩

/-- `ZaffariScraper.scrape_product` (src/scraper/zaffari_scraper.py,
lines 268-317). The code after the validation guard (SKU extraction,
delay, `_fetch_page`, HTML parsing) is abstracted as `rest`, which
returns the assembled record together with the number of network
requests it performed; the guard itself is translated from the source:
an invalid URL returns the hard-failure record before any of that code
runs, so with zero network requests. -/
def zaffariScrapeProduct (url : String) (rest : String → ScrapedProduct × ℕ) :
    ScrapedProduct × ℕ :=
  if zaffariValidateUrl url then rest url else (zaffariHardFailure url, 0)

/-- `CarrefourScraper.scrape_product` (src/scraper/carrefour_scraper.py,
lines 319-413), abstracted in the same way: the URL-validation guard is
from the source, and everything after it (delay, page fetch, API
fallback) is the `rest` argument with its network-request count. -/
def carrefourScrapeProduct (url : String) (rest : String → ScrapedProduct × ℕ) :
    ScrapedProduct × ℕ :=
  if carrefourValidateUrl url then rest url else (carrefourHardFailure url, 0)

/-- The product of the spec's boundary example: three identical
observations of 10 within every window, current price exactly 10. -/
def prodFlat : Product :=
  ⟨1, some 10, some 10, some 10, [⟨10, 0⟩, ⟨10, 1⟩, ⟨10, 2⟩]⟩

/-- The period analysis produced for `prodFlat` over any window that
holds its three samples. -/
def prodFlatAnalysis : PeriodAnalysis :=
  ⟨10, 0, ((10 : ℚ) : ℝ) - 0, ((10 : ℚ) : ℝ) - 0 * 2,
    ((10 : ℚ) : ℝ) ≤ ((10 : ℚ) : ℝ) - 0, ((10 : ℚ) : ℝ) ≤ ((10 : ℚ) : ℝ) - 0 * 2⟩

/-- A product whose window statistics have an irrational standard
deviation: samples 0, 1, 2 (mean 1, σ = √(2/3) ≈ 0.8165, rounded to
0.82) and current price 0.181. -/
def prodSpread : Product :=
  ⟨2, some (181 / 1000), some (181 / 1000), some (181 / 1000), [⟨0, 0⟩, ⟨1, 1⟩, ⟨2, 2⟩]⟩

/-- A classification entry of `prodFlat`: at the mean, zero margin. -/
def flatDeal (k : ℕ) (d : ℚ) : DealInfo := ⟨1, 10, 0, 10, k, d, 0⟩

/-- A product whose stored bounds are zero: Python's `or` treats the
Decimal 0 as unset. -/
def prodZero : Product := ⟨3, some 3, some 0, some 0, []⟩

lemma digit_beq_false {c d : Char} (h : c.isDigit = true) (hd : d.isDigit = false) :
    (c == d) = false := by
  cases hcd : c == d
  · rfl
  · rw [beq_iff_eq] at hcd
    subst hcd
    rw [h] at hd
    cases hd

lemma not_mem_of_digits {l : List Char} (hl : l.all Char.isDigit = true) {d : Char}
    (hd : d.isDigit = false) : d ∉ l := by
  intro hm
  have := List.all_eq_true.1 hl d hm
  rw [this] at hd
  cases hd

lemma any_beq_false_of_digits {l : List Char} (hl : l.all Char.isDigit = true) {d : Char}
    (hd : d.isDigit = false) : l.any (· == d) = false := by
  cases ha : l.any (· == d)
  · rfl
  · rcases List.any_eq_true.1 ha with ⟨x, hx, hbeq⟩
    rw [digit_beq_false (List.all_eq_true.1 hl x hx) hd] at hbeq
    cases hbeq

lemma takeWhile_ne_append {sep : Char} (b a : List Char) (hb : sep ∉ b) :
    (b ++ sep :: a).takeWhile (fun c => c != sep) = b := by
  induction b with
  | nil => simp [List.takeWhile_cons]
  | cons x xs ih =>
    have hx : (x == sep) = false := by
      cases hxs : x == sep
      · rfl
      · rw [beq_iff_eq] at hxs
        exact absurd (by simp [hxs]) hb
    have ih2 := ih (fun hm => hb (List.mem_cons_of_mem x hm))
    simp only [List.cons_append, List.takeWhile_cons, bne, hx, Bool.not_false, if_true]
    simp only [bne] at ih2
    rw [ih2]

lemma dropWhile_ne_append {sep : Char} (b a : List Char) (hb : sep ∉ b) :
    (b ++ sep :: a).dropWhile (fun c => c != sep) = sep :: a := by
  induction b with
  | nil => simp [List.dropWhile_cons]
  | cons x xs ih =>
    have hx : (x == sep) = false := by
      cases hxs : x == sep
      · rfl
      · rw [beq_iff_eq] at hxs
        exact absurd (by simp [hxs]) hb
    have ih2 := ih (fun hm => hb (List.mem_cons_of_mem x hm))
    simp only [List.cons_append, List.dropWhile_cons, bne, hx, Bool.not_false, if_true]
    simp only [bne] at ih2
    rw [ih2]

lemma count_one_append {sep : Char} (b a : List Char) (hb : sep ∉ b) (ha : sep ∉ a) :
    (b ++ sep :: a).count sep = 1 := by
  rw [List.count_append, List.count_cons_self]
  rw [List.count_eq_zero.2 hb, List.count_eq_zero.2 ha]

lemma splitDotParts_spec (b a : List Char) (hb : '.' ∉ b) (ha : '.' ∉ a) :
    splitDotParts (b ++ '.' :: a) = some (b, a) := by
  rw [splitDotParts, count_one_append b a hb ha]
  rw [takeWhile_ne_append b a hb, dropWhile_ne_append b a hb]
  rfl

lemma isEmpty_append_cons (b : List Char) (x : Char) (a : List Char) :
    (b ++ x :: a).isEmpty = false := by
  cases b <;> rfl

lemma isEmpty_false_of_ne_nil {l : List Char} (hne : l ≠ []) : l.isEmpty = false := by
  cases l
  · exact absurd rfl hne
  · rfl

lemma decimalParts_digits {l : List Char} (h : l.all Char.isDigit = true) (hne : l ≠ []) :
    decimalParts l = some (natOfDigits l, 0) := by
  have hcond : (!l.isEmpty && l.all Char.isDigit) = true := by
    rw [h, isEmpty_false_of_ne_nil hne]
    rfl
  rw [decimalParts]
  rw [any_beq_false_of_digits h (by decide)]
  rw [List.count_eq_zero.2 (not_mem_of_digits h (by decide))]
  rw [if_neg (by simp)]
  rw [if_pos (show ((0 == 0) = true) from rfl), if_pos hcond]

lemma decimalParts_one_dot (b a : List Char) (hb : b.all Char.isDigit = true)
    (ha : a.all Char.isDigit = true) (hne : b ++ a ≠ []) :
    decimalParts (b ++ '.' :: a) = some (natOfDigits (b ++ a), a.length) := by
  have hdb : '.' ∉ b := not_mem_of_digits hb (by decide)
  have hda : '.' ∉ a := not_mem_of_digits ha (by decide)
  rw [decimalParts]
  have hcomma : (b ++ '.' :: a).any (· == ',') = false := by
    rw [List.any_append, List.any_cons]
    rw [any_beq_false_of_digits hb (by decide), any_beq_false_of_digits ha (by decide)]
    rfl
  have hcond : (!(b ++ a).isEmpty && (b ++ a).all Char.isDigit) = true := by
    rw [isEmpty_false_of_ne_nil hne, List.all_append, hb, ha]
    rfl
  rw [hcomma]
  rw [count_one_append b a hdb hda]
  rw [if_neg (by simp)]
  rw [if_neg (show ¬((1 == 0) = true) by decide)]
  rw [if_pos (show ((1 == 1) = true) from rfl)]
  rw [takeWhile_ne_append b a hdb, dropWhile_ne_append b a hdb]
  simp only [List.tail_cons]
  rw [if_pos hcond]

lemma removeDots_eq_self {l : List Char} (h : '.' ∉ l) : removeDots l = l := by
  rw [removeDots, List.filter_eq_self]
  intro c hc
  cases hcd : c == '.'
  · simp [bne, hcd]
  · rw [beq_iff_eq] at hcd
    subst hcd
    exact absurd hc h

lemma commaToDot_eq_self {l : List Char} (h : ',' ∉ l) : commaToDot l = l := by
  induction l with
  | nil => rfl
  | cons x xs ih =>
    have hx : (x == ',') = false := by
      cases hxs : x == ','
      · rfl
      · rw [beq_iff_eq] at hxs
        exact absurd (by simp [hxs]) h
    have ih2 := ih (fun hm => h (List.mem_cons_of_mem x hm))
    rw [commaToDot, List.map_cons]
    rw [commaToDot] at ih2
    simp only [hx]
    rw [if_neg (by simp), ih2]

lemma removeCommas_eq_self {l : List Char} (h : ',' ∉ l) : removeCommas l = l := by
  rw [removeCommas, List.filter_eq_self]
  intro c hc
  cases hcd : c == ','
  · simp [bne, hcd]
  · rw [beq_iff_eq] at hcd
    subst hcd
    exact absurd hc h

lemma filter_isPriceChar_of_digits_sep (l : List Char)
    (h : l.all (fun c => isPriceChar c) = true) : l.filter isPriceChar = l :=
  List.filter_eq_self.2 (List.all_eq_true.1 h)

lemma all_isPriceChar_of_digits {l : List Char} (h : l.all Char.isDigit = true) :
    l.all (fun c => isPriceChar c) = true := by
  rw [List.all_eq_true]
  intro c hc
  have := List.all_eq_true.1 h c hc
  rw [isPriceChar, this]
  rfl

lemma all_price_append_sep (b a : List Char) (hb : b.all Char.isDigit = true)
    (ha : a.all Char.isDigit = true) (sep : Char) (hsep : isPriceChar sep = true) :
    (b ++ sep :: a).all (fun c => isPriceChar c) = true := by
  rw [List.all_append, all_isPriceChar_of_digits hb, List.all_cons, hsep,
    all_isPriceChar_of_digits ha]
  rfl

lemma removeDots_append_dot (b a : List Char) (hdb : '.' ∉ b) (hda : '.' ∉ a) :
    removeDots (b ++ '.' :: a) = b ++ a := by
  have h1 : List.filter (fun c => c != '.') b = b := removeDots_eq_self hdb
  have h2 : List.filter (fun c => c != '.') a = a := removeDots_eq_self hda
  rw [removeDots, List.filter_append, List.filter_cons]
  simp [h1, h2]

lemma commaToDot_append_comma (x y : List Char) (hx : ',' ∉ x) (hy : ',' ∉ y) :
    commaToDot (x ++ ',' :: y) = x ++ '.' :: y := by
  have h1 : commaToDot x = x := commaToDot_eq_self hx
  have h2 : commaToDot y = y := commaToDot_eq_self hy
  rw [commaToDot] at h1 h2
  rw [commaToDot, List.map_append, List.map_cons, h1, h2]
  norm_num

lemma removeCommas_append_comma (x y : List Char) (hx : ',' ∉ x) (hy : ',' ∉ y) :
    removeCommas (x ++ ',' :: y) = x ++ y := by
  have h1 : List.filter (fun c => c != ',') x = x := removeCommas_eq_self hx
  have h2 : List.filter (fun c => c != ',') y = y := removeCommas_eq_self hy
  rw [removeCommas, List.filter_append, List.filter_cons]
  simp [h1, h2]

lemma any_dot_append (b a : List Char) : ((b ++ '.' :: a).any (· == '.')) = true := by
  rw [List.any_append, List.any_cons]
  simp

lemma any_comma_digits_dot (b a : List Char) (hb : b.all Char.isDigit = true)
    (ha : a.all Char.isDigit = true) : ((b ++ '.' :: a).any (· == ',')) = false := by
  rw [List.any_append, List.any_cons]
  rw [any_beq_false_of_digits hb (by decide), any_beq_false_of_digits ha (by decide)]
  rfl

lemma ne_nil_append_of_length {a : List Char} (b : List Char) {n : ℕ} (h : a.length = n)
    (hn : n ≠ 0) : b ++ a ≠ [] := by
  intro hcon
  rcases List.append_eq_nil.1 hcon with ⟨-, h2⟩
  subst h2
  exact hn h.symm

lemma zaffariNormalize_dot3 (b a : List Char) (hb : b.all Char.isDigit = true)
    (ha : a.all Char.isDigit = true) (h3 : a.length = 3) :
    zaffariNormalize (b ++ '.' :: a) = some (b ++ a) := by
  have hdb : '.' ∉ b := not_mem_of_digits hb (by decide)
  have hda : '.' ∉ a := not_mem_of_digits ha (by decide)
  rw [zaffariNormalize]
  rw [filter_isPriceChar_of_digits_sep _ (all_price_append_sep b a hb ha '.' (by decide))]
  simp only [any_comma_digits_dot b a hb ha, any_dot_append b a, isEmpty_append_cons,
    Bool.false_and, Bool.false_eq_true, if_false, if_true, splitDotParts_spec b a hdb hda, h3]
  norm_num [removeDots_append_dot b a hdb hda]

lemma zaffariNormalize_dotNe3 (b a : List Char) (hb : b.all Char.isDigit = true)
    (ha : a.all Char.isDigit = true) (h3 : a.length ≠ 3) :
    zaffariNormalize (b ++ '.' :: a) = some (b ++ '.' :: a) := by
  have hdb : '.' ∉ b := not_mem_of_digits hb (by decide)
  have hda : '.' ∉ a := not_mem_of_digits ha (by decide)
  rw [zaffariNormalize]
  rw [filter_isPriceChar_of_digits_sep _ (all_price_append_sep b a hb ha '.' (by decide))]
  simp only [any_comma_digits_dot b a hb ha, any_dot_append b a, isEmpty_append_cons,
    Bool.false_and, Bool.false_eq_true, if_false, if_true, splitDotParts_spec b a hdb hda]
  rw [if_neg (by simp [h3])]

lemma amazonNormalize_dot2 (b a : List Char) (hb : b.all Char.isDigit = true)
    (ha : a.all Char.isDigit = true) (h2 : a.length = 2) :
    amazonNormalize (b ++ '.' :: a) = some (b ++ '.' :: a) := by
  have hdb : '.' ∉ b := not_mem_of_digits hb (by decide)
  have hda : '.' ∉ a := not_mem_of_digits ha (by decide)
  rw [amazonNormalize]
  rw [filter_isPriceChar_of_digits_sep _ (all_price_append_sep b a hb ha '.' (by decide))]
  simp only [any_comma_digits_dot b a hb ha, any_dot_append b a, isEmpty_append_cons,
    Bool.false_and, Bool.false_eq_true, if_false, if_true, splitDotParts_spec b a hdb hda, h2]
  norm_num

lemma amazonNormalize_dot3_short (b a : List Char) (hb : b.all Char.isDigit = true)
    (ha : a.all Char.isDigit = true) (h3 : a.length = 3) (hs : b.length ≤ 3) :
    amazonNormalize (b ++ '.' :: a) = some (b ++ '.' :: a.take 2) := by
  have hdb : '.' ∉ b := not_mem_of_digits hb (by decide)
  have hda : '.' ∉ a := not_mem_of_digits ha (by decide)
  rw [amazonNormalize]
  rw [filter_isPriceChar_of_digits_sep _ (all_price_append_sep b a hb ha '.' (by decide))]
  simp only [any_comma_digits_dot b a hb ha, any_dot_append b a, isEmpty_append_cons,
    Bool.false_and, Bool.false_eq_true, if_false, if_true, splitDotParts_spec b a hdb hda, h3,
    decide_eq_true hs]
  norm_num

lemma amazonNormalize_dot3_long (b a : List Char) (hb : b.all Char.isDigit = true)
    (ha : a.all Char.isDigit = true) (h3 : a.length = 3) (hl : 3 < b.length) :
    amazonNormalize (b ++ '.' :: a) = some (b ++ a) := by
  have hdb : '.' ∉ b := not_mem_of_digits hb (by decide)
  have hda : '.' ∉ a := not_mem_of_digits ha (by decide)
  rw [amazonNormalize]
  rw [filter_isPriceChar_of_digits_sep _ (all_price_append_sep b a hb ha '.' (by decide))]
  simp only [any_comma_digits_dot b a hb ha, any_dot_append b a, isEmpty_append_cons,
    Bool.false_and, Bool.false_eq_true, if_false, if_true, splitDotParts_spec b a hdb hda, h3,
    decide_eq_false (not_le.2 hl)]
  norm_num [removeDots_append_dot b a hdb hda]

lemma partsVal_two (n : ℕ) : partsVal (n, 2) = (n : ℚ) / 100 := by norm_num [partsVal]

lemma partsVal_zero (n : ℕ) : partsVal (n, 0) = (n : ℚ) := by simp [partsVal]

lemma all_digits_append {b a : List Char} (hb : b.all Char.isDigit = true)
    (ha : a.all Char.isDigit = true) : (b ++ a).all Char.isDigit = true := by
  rw [List.all_append, hb, ha]
  rfl

lemma all_digits_take {a : List Char} (ha : a.all Char.isDigit = true) (n : ℕ) :
    (a.take n).all Char.isDigit = true :=
  List.all_eq_true.2 fun c hc => List.all_eq_true.1 ha c (List.take_subset n a hc)

lemma zaffariParts_dot3 (b a : List Char) (hb : b.all Char.isDigit = true)
    (ha : a.all Char.isDigit = true) (h3 : a.length = 3) :
    zaffariParseParts (b ++ '.' :: a) = some (natOfDigits (b ++ a), 0) := by
  rw [zaffariParseParts, zaffariNormalize_dot3 b a hb ha h3, Option.some_bind]
  exact decimalParts_digits (all_digits_append hb ha) (ne_nil_append_of_length b h3 (by norm_num))

lemma zaffariParts_dotNe3 (b a : List Char) (hb : b.all Char.isDigit = true)
    (ha : a.all Char.isDigit = true) (h3 : a.length ≠ 3) (hne : b ++ a ≠ []) :
    zaffariParseParts (b ++ '.' :: a) = some (natOfDigits (b ++ a), a.length) := by
  rw [zaffariParseParts, zaffariNormalize_dotNe3 b a hb ha h3, Option.some_bind]
  exact decimalParts_one_dot b a hb ha hne

lemma amazonParts_dot2 (b a : List Char) (hb : b.all Char.isDigit = true)
    (ha : a.all Char.isDigit = true) (h2 : a.length = 2) :
    amazonParseParts (b ++ '.' :: a) = some (natOfDigits (b ++ a), 2) := by
  rw [amazonParseParts, amazonNormalize_dot2 b a hb ha h2, Option.some_bind]
  rw [decimalParts_one_dot b a hb ha (ne_nil_append_of_length b h2 (by norm_num)), h2]

lemma amazonParts_dot3_short (b a : List Char) (hb : b.all Char.isDigit = true)
    (ha : a.all Char.isDigit = true) (h3 : a.length = 3) (hs : b.length ≤ 3) :
    amazonParseParts (b ++ '.' :: a) = some (natOfDigits (b ++ a.take 2), 2) := by
  rw [amazonParseParts, amazonNormalize_dot3_short b a hb ha h3 hs, Option.some_bind]
  have hlen : (a.take 2).length = 2 := by
    rw [List.length_take, h3]
    rfl
  rw [decimalParts_one_dot b (a.take 2) hb (all_digits_take ha 2)
    (ne_nil_append_of_length b hlen (by norm_num)), hlen]

lemma amazonParts_dot3_long (b a : List Char) (hb : b.all Char.isDigit = true)
    (ha : a.all Char.isDigit = true) (h3 : a.length = 3) (hl : 3 < b.length) :
    amazonParseParts (b ++ '.' :: a) = some (natOfDigits (b ++ a), 0) := by
  rw [amazonParseParts, amazonNormalize_dot3_long b a hb ha h3 hl, Option.some_bind]
  exact decimalParts_digits (all_digits_append hb ha) (ne_nil_append_of_length b h3 (by norm_num))

lemma carrefourPrice_eq_zaffari : carrefourParsePrice = zaffariParsePrice := rfl

/-- C3 (corrected). For a price string consisting of a digit run `b`, a
single dot and a digit run `a`: with exactly 2 digits after the dot all
three scraper parsers read the string as a decimal; with exactly 3
digits after the dot and an integer part of at most 3 digits only the
Amazon parser treats it as a mangled decimal and truncates the
fractional part to 2 digits, while the Zaffari and Carrefour parsers
strip the dot as a thousands separator; with 3 digits after the dot and
a longer integer part all three parsers strip the dot. -/
theorem dotOnly_separator_rules (b a : List Char) (hb : b.all Char.isDigit = true)
    (ha : a.all Char.isDigit = true) :
    (a.length = 2 →
      amazonParsePrice (b ++ '.' :: a) = some ((natOfDigits (b ++ a) : ℚ) / 100) ∧
      zaffariParsePrice (b ++ '.' :: a) = some ((natOfDigits (b ++ a) : ℚ) / 100) ∧
      carrefourParsePrice (b ++ '.' :: a) = some ((natOfDigits (b ++ a) : ℚ) / 100)) ∧
    (a.length = 3 → b.length ≤ 3 →
      amazonParsePrice (b ++ '.' :: a) = some ((natOfDigits (b ++ a.take 2) : ℚ) / 100) ∧
      zaffariParsePrice (b ++ '.' :: a) = some ((natOfDigits (b ++ a) : ℚ)) ∧
      carrefourParsePrice (b ++ '.' :: a) = some ((natOfDigits (b ++ a) : ℚ))) ∧
    (a.length = 3 → 3 < b.length →
      amazonParsePrice (b ++ '.' :: a) = some ((natOfDigits (b ++ a) : ℚ)) ∧
      zaffariParsePrice (b ++ '.' :: a) = some ((natOfDigits (b ++ a) : ℚ)) ∧
      carrefourParsePrice (b ++ '.' :: a) = some ((natOfDigits (b ++ a) : ℚ))) := by
  rw [carrefourPrice_eq_zaffari]
  refine ⟨fun h2 => ⟨?_, ?_, ?_⟩, fun h3 hs => ⟨?_, ?_, ?_⟩, fun h3 hl => ⟨?_, ?_, ?_⟩⟩
  · rw [amazonParsePrice, amazonParts_dot2 b a hb ha h2, Option.map_some', partsVal_two]
  · rw [zaffariParsePrice, zaffariParts_dotNe3 b a hb ha (by rw [h2]; norm_num)
      (ne_nil_append_of_length b h2 (by norm_num)), Option.map_some', h2, partsVal_two]
  · rw [zaffariParsePrice, zaffariParts_dotNe3 b a hb ha (by rw [h2]; norm_num)
      (ne_nil_append_of_length b h2 (by norm_num)), Option.map_some', h2, partsVal_two]
  · rw [amazonParsePrice, amazonParts_dot3_short b a hb ha h3 hs, Option.map_some', partsVal_two]
  · rw [zaffariParsePrice, zaffariParts_dot3 b a hb ha h3, Option.map_some', partsVal_zero]
  · rw [zaffariParsePrice, zaffariParts_dot3 b a hb ha h3, Option.map_some', partsVal_zero]
  · rw [amazonParsePrice, amazonParts_dot3_long b a hb ha h3 hl, Option.map_some', partsVal_zero]
  · rw [zaffariParsePrice, zaffariParts_dot3 b a hb ha h3, Option.map_some', partsVal_zero]
  · rw [zaffariParsePrice, zaffariParts_dot3 b a hb ha h3, Option.map_some', partsVal_zero]

/-- C3 witness: the rules of `dotOnly_separator_rules` instantiated at
the spec's own example `"39.600"` (integer part `39`, 3 digits after
the dot): the Amazon parser truncates to 39.60, the Zaffari parser
strips the dot and reads 39600. -/
theorem dotOnly_separator_rules_witness :
    amazonParsePrice ("39.600".toList) = some ((3960 : ℚ) / 100) ∧
    zaffariParsePrice ("39.600".toList) = some ((39600 : ℚ)) := by
  have h := (dotOnly_separator_rules ("39".toList) ("600".toList)
    (by decide) (by decide)).2.1 (by decide) (by decide)
  have heq : "39".toList ++ '.' :: "600".toList = "39.600".toList := by decide
  have h1 := h.1
  have h2 := h.2.1
  rw [heq] at h1 h2
  rw [show natOfDigits ("39".toList ++ ("600".toList).take 2) = 3960 from by decide] at h1
  rw [show natOfDigits ("39".toList ++ "600".toList) = 39600 from by decide] at h2
  exact ⟨h1, h2⟩

/-- C3 counterexample: the claim says every cited parser turns
`"39.600"` (3 digits after a lone dot, integer part of at most 3
digits) into the mangled decimal 39.60; the Zaffari parser instead
strips the dot and returns 39600. -/
theorem dotOnly_mangled_zaffari_counterexample :
    zaffariParsePrice ("39.600".toList) = some (39600 : ℚ) ∧ (39600 : ℚ) ≠ 396 / 10 := by
  constructor
  · have h : zaffariParseParts ("39.600".toList) = some (39600, 0) := by decide
    rw [zaffariParsePrice, h, Option.map_some', partsVal_zero]
    norm_num
  · norm_num

lemma isPriceChar_cases {c : Char} (h : isPriceChar c = true) :
    c.isDigit = true ∨ c = '.' ∨ c = ',' := by
  rw [isPriceChar, Bool.or_eq_true] at h
  rcases h with h | h
  · rw [Bool.or_eq_true] at h
    rcases h with h | h
    · exact Or.inl h
    · rw [beq_iff_eq] at h
      exact Or.inr (Or.inl h)
  · rw [beq_iff_eq] at h
    exact Or.inr (Or.inr h)

lemma isPriceChar_not_ws {c : Char} (h : isPriceChar c = true) : c.isWhitespace = false := by
  rcases isPriceChar_cases h with hd | he | he
  · have h1 : c ≠ ' ' := fun he => absurd (he ▸ hd) (by decide)
    have h2 : c ≠ '\t' := fun he => absurd (he ▸ hd) (by decide)
    have h3 : c ≠ '\r' := fun he => absurd (he ▸ hd) (by decide)
    have h4 : c ≠ '\n' := fun he => absurd (he ▸ hd) (by decide)
    simp [Char.isWhitespace, h1, h2, h3, h4]
  · subst he
    decide
  · subst he
    decide

lemma isPriceChar_keep {c : Char} (h : isPriceChar c = true) :
    (c != 'R' && c != '$' && c != ' ') = true := by
  rcases isPriceChar_cases h with hd | he | he
  · rw [bne, bne, bne, digit_beq_false hd (by decide), digit_beq_false hd (by decide),
      digit_beq_false hd (by decide)]
    rfl
  · subst he
    decide
  · subst he
    decide

lemma dropWhile_ws_eq_self {l : List Char} (h : ∀ x ∈ l, x.isWhitespace = false) :
    l.dropWhile Char.isWhitespace = l := by
  cases l with
  | nil => rfl
  | cons x xs =>
    rw [List.dropWhile_cons, h x (List.mem_cons_self x xs)]
    simp

lemma stripChars_eq_self {l : List Char} (h : ∀ x ∈ l, x.isWhitespace = false) :
    stripChars l = l := by
  rw [stripChars, dropWhile_ws_eq_self h,
    dropWhile_ws_eq_self (fun x hx => h x (List.mem_reverse.1 hx)), List.reverse_reverse]

lemma findIdx_append_first (p : Char → Bool) (xs : List Char) (y : Char) (ys : List Char)
    (hxs : ∀ x ∈ xs, p x = false) (hy : p y = true) :
    (xs ++ y :: ys).findIdx p = xs.length := by
  induction xs with
  | nil =>
    rw [List.nil_append, List.findIdx_cons, hy]
    rfl
  | cons x xs ih =>
    rw [List.cons_append, List.findIdx_cons, hxs x (List.mem_cons_self x xs)]
    rw [ih (fun z hz => hxs z (List.mem_cons_of_mem x hz))]
    rfl

lemma reverse_shape (a b c : List Char) (s1 s2 : Char) :
    (a ++ s1 :: (b ++ s2 :: c)).reverse = c.reverse ++ s2 :: (b.reverse ++ s1 :: a.reverse) := by
  simp [List.reverse_append, List.append_assoc]

lemma any_sep_append (sep : Char) (x y : List Char) :
    ((x ++ sep :: y).any (· == sep)) = true := by
  rw [List.any_append, List.any_cons]
  simp

lemma digit_ne {c d : Char} (h : c.isDigit = true) (hd : d.isDigit = false) : c ≠ d := by
  intro he
  rw [he] at h
  rw [h] at hd
  cases hd

lemma removeDots_append (x y : List Char) :
    removeDots (x ++ y) = removeDots x ++ removeDots y := by
  rw [removeDots, removeDots, removeDots, List.filter_append]

lemma removeDots_cons_dot (y : List Char) : removeDots ('.' :: y) = removeDots y := by
  rw [removeDots, removeDots, List.filter_cons]
  simp

lemma removeCommas_append (x y : List Char) :
    removeCommas (x ++ y) = removeCommas x ++ removeCommas y := by
  rw [removeCommas, removeCommas, removeCommas, List.filter_append]

lemma removeCommas_cons_comma (y : List Char) : removeCommas (',' :: y) = removeCommas y := by
  rw [removeCommas, removeCommas, List.filter_cons]
  simp

lemma commaToDot_append (x y : List Char) :
    commaToDot (x ++ y) = commaToDot x ++ commaToDot y := by
  rw [commaToDot, commaToDot, commaToDot, List.map_append]

lemma commaToDot_cons_comma (y : List Char) : commaToDot (',' :: y) = '.' :: commaToDot y := by
  rw [commaToDot, commaToDot, List.map_cons]
  simp

lemma append_ne_nil_left {a : List Char} (h : a ≠ []) (r : List Char) : a ++ r ≠ [] := by
  intro hc
  exact h (List.append_eq_nil.1 hc).1

lemma not_mem_sep_digits {b c : List Char} {s d : Char} (hb : b.all Char.isDigit = true)
    (hc : c.all Char.isDigit = true) (hd : d.isDigit = false) (hsd : s ≠ d) :
    d ∉ b ++ s :: c := by
  intro hm
  rcases List.mem_append.1 hm with hm | hm
  · exact not_mem_of_digits hb hd hm
  · rcases List.mem_cons.1 hm with hm | hm
    · exact hsd hm.symm
    · exact not_mem_of_digits hc hd hm

lemma all_price_shape (a b c : List Char) (ha : a.all Char.isDigit = true)
    (hb : b.all Char.isDigit = true) (hc : c.all Char.isDigit = true) (s1 s2 : Char)
    (h1 : isPriceChar s1 = true) (h2 : isPriceChar s2 = true) :
    (a ++ s1 :: (b ++ s2 :: c)).all (fun ch => isPriceChar ch) = true := by
  rw [List.all_append, List.all_cons, h1, all_isPriceChar_of_digits ha,
    all_price_append_sep b c hb hc s2 h2]
  rfl

lemma any_comma_shape1 (a b c : List Char) :
    ((a ++ '.' :: (b ++ ',' :: c)).any (· == ',')) = true := by
  rw [List.any_append, List.any_cons, any_sep_append]
  simp

lemma any_dot_shape2 (a b c : List Char) :
    ((a ++ ',' :: (b ++ '.' :: c)).any (· == '.')) = true := by
  rw [List.any_append, List.any_cons, any_sep_append]
  simp

lemma rfind_compare_shape1 (a b c : List Char)
    (hb : b.all Char.isDigit = true) (hc : c.all Char.isDigit = true) :
    rfindPos ',' (a ++ '.' :: (b ++ ',' :: c)) > rfindPos '.' (a ++ '.' :: (b ++ ',' :: c)) := by
  have hrev : (a ++ '.' :: (b ++ ',' :: c)).reverse =
      c.reverse ++ ',' :: (b.reverse ++ '.' :: a.reverse) := reverse_shape a b c '.' ','
  have hrev2 : (a ++ '.' :: (b ++ ',' :: c)).reverse =
      (c.reverse ++ ',' :: b.reverse) ++ '.' :: a.reverse := by
    rw [hrev]
    simp [List.append_assoc]
  have hfc : (a ++ '.' :: (b ++ ',' :: c)).reverse.findIdx (· == ',') = c.length := by
    rw [hrev, findIdx_append_first _ c.reverse ',' _
      (fun x hx => digit_beq_false (List.all_eq_true.1 hc x (List.mem_reverse.1 hx)) (by decide))
      (by simp), List.length_reverse]
  have hfd : (a ++ '.' :: (b ++ ',' :: c)).reverse.findIdx (· == '.') =
      c.length + b.length + 1 := by
    rw [hrev2, findIdx_append_first _ (c.reverse ++ ',' :: b.reverse) '.' _ ?_ (by simp)]
    · simp [List.length_append, List.length_reverse]
      omega
    · intro x hx
      rcases List.mem_append.1 hx with hm | hm
      · exact digit_beq_false (List.all_eq_true.1 hc x (List.mem_reverse.1 hm)) (by decide)
      · rcases List.mem_cons.1 hm with hm | hm
        · subst hm
          decide
        · exact digit_beq_false (List.all_eq_true.1 hb x (List.mem_reverse.1 hm)) (by decide)
  rw [rfindPos, rfindPos, if_pos (any_comma_shape1 a b c),
    if_pos (any_sep_append '.' a (b ++ ',' :: c)), hfc, hfd]
  push_cast
  omega

lemma rfind_compare_shape2 (a b c : List Char)
    (hb : b.all Char.isDigit = true) (hc : c.all Char.isDigit = true) :
    ¬(rfindPos ',' (a ++ ',' :: (b ++ '.' :: c)) > rfindPos '.' (a ++ ',' :: (b ++ '.' :: c))) := by
  have hrev : (a ++ ',' :: (b ++ '.' :: c)).reverse =
      c.reverse ++ '.' :: (b.reverse ++ ',' :: a.reverse) := reverse_shape a b c ',' '.'
  have hrev2 : (a ++ ',' :: (b ++ '.' :: c)).reverse =
      (c.reverse ++ '.' :: b.reverse) ++ ',' :: a.reverse := by
    rw [hrev]
    simp [List.append_assoc]
  have hfd : (a ++ ',' :: (b ++ '.' :: c)).reverse.findIdx (· == '.') = c.length := by
    rw [hrev, findIdx_append_first _ c.reverse '.' _
      (fun x hx => digit_beq_false (List.all_eq_true.1 hc x (List.mem_reverse.1 hx)) (by decide))
      (by simp), List.length_reverse]
  have hfc : (a ++ ',' :: (b ++ '.' :: c)).reverse.findIdx (· == ',') =
      c.length + b.length + 1 := by
    rw [hrev2, findIdx_append_first _ (c.reverse ++ '.' :: b.reverse) ',' _ ?_ (by simp)]
    · simp [List.length_append, List.length_reverse]
      omega
    · intro x hx
      rcases List.mem_append.1 hx with hm | hm
      · exact digit_beq_false (List.all_eq_true.1 hc x (List.mem_reverse.1 hm)) (by decide)
      · rcases List.mem_cons.1 hm with hm | hm
        · subst hm
          decide
        · exact digit_beq_false (List.all_eq_true.1 hb x (List.mem_reverse.1 hm)) (by decide)
  rw [rfindPos, rfindPos, if_pos (any_sep_append ',' a (b ++ '.' :: c)),
    if_pos (any_dot_shape2 a b c), hfc, hfd]
  push_cast
  omega

lemma head?_cons_append (x : Char) (xs r : List Char) : ((x :: xs) ++ r).head? = some x := by
  rw [List.cons_append]
  rfl

lemma removeDots_cons_ne (y : Char) (r : List Char) (h : y ≠ '.') :
    removeDots (y :: r) = y :: removeDots r := by
  rw [removeDots, removeDots, List.filter_cons]
  simp [bne, beq_eq_false_iff_ne, h]

lemma zaffariNormalize_shape1 (a b c : List Char) (ha : a.all Char.isDigit = true)
    (hb : b.all Char.isDigit = true) (hc : c.all Char.isDigit = true) :
    zaffariNormalize (a ++ '.' :: (b ++ ',' :: c)) = some (a ++ b ++ '.' :: c) := by
  have hda : '.' ∉ a := not_mem_of_digits ha (by decide)
  have hdbc : '.' ∉ b ++ ',' :: c := not_mem_sep_digits hb hc (by decide) (by decide)
  have hca : ',' ∉ a := not_mem_of_digits ha (by decide)
  have hcb : ',' ∉ b := not_mem_of_digits hb (by decide)
  have hcc : ',' ∉ c := not_mem_of_digits hc (by decide)
  have hrd : removeDots (a ++ '.' :: (b ++ ',' :: c)) = a ++ (b ++ ',' :: c) := by
    rw [removeDots_append, removeDots_cons_dot, removeDots_eq_self hda,
      removeDots_eq_self hdbc]
  have hcd : commaToDot (a ++ (b ++ ',' :: c)) = a ++ (b ++ '.' :: c) := by
    rw [commaToDot_append, commaToDot_append, commaToDot_cons_comma,
      commaToDot_eq_self hca, commaToDot_eq_self hcb, commaToDot_eq_self hcc]
  rw [zaffariNormalize]
  rw [filter_isPriceChar_of_digits_sep _ (all_price_shape a b c ha hb hc '.' ',' (by decide) (by decide))]
  simp only [any_comma_shape1 a b c, any_sep_append, isEmpty_append_cons, Bool.true_and,
    Bool.false_eq_true, if_false, if_true]
  rw [hrd, hcd, List.append_assoc]

lemma zaffariNormalize_shape2 (a b c : List Char) (ha : a.all Char.isDigit = true)
    (hb : b.all Char.isDigit = true) (hc : c.all Char.isDigit = true) :
    zaffariNormalize (a ++ ',' :: (b ++ '.' :: c)) = some (a ++ '.' :: (b ++ c)) := by
  have hda : '.' ∉ a := not_mem_of_digits ha (by decide)
  have hdb : '.' ∉ b := not_mem_of_digits hb (by decide)
  have hdc : '.' ∉ c := not_mem_of_digits hc (by decide)
  have hca : ',' ∉ a := not_mem_of_digits ha (by decide)
  have hcbc : ',' ∉ b ++ c := by
    intro hm
    rcases List.mem_append.1 hm with hm | hm
    · exact not_mem_of_digits hb (by decide) hm
    · exact not_mem_of_digits hc (by decide) hm
  have hrd : removeDots (a ++ ',' :: (b ++ '.' :: c)) = a ++ ',' :: (b ++ c) := by
    rw [removeDots_append, removeDots_cons_ne ',' _ (by decide), removeDots_eq_self hda,
      removeDots_append_dot b c hdb hdc]
  have hcd : commaToDot (a ++ ',' :: (b ++ c)) = a ++ '.' :: (b ++ c) := by
    rw [commaToDot_append, commaToDot_cons_comma, commaToDot_eq_self hca,
      commaToDot_eq_self hcbc]
  rw [zaffariNormalize]
  rw [filter_isPriceChar_of_digits_sep _ (all_price_shape a b c ha hb hc ',' '.' (by decide) (by decide))]
  simp only [any_dot_shape2 a b c, any_sep_append, isEmpty_append_cons, Bool.true_and,
    Bool.false_eq_true, if_false, if_true]
  rw [hrd, hcd]

lemma helpersClean_id {l : List Char} (hall : l.all (fun c => isPriceChar c) = true) :
    (stripChars l).filter (fun c => c != 'R' && c != '$' && c != ' ') = l := by
  rw [stripChars_eq_self (fun x hx => isPriceChar_not_ws (List.all_eq_true.1 hall x hx))]
  exact List.filter_eq_self.2 (fun x hx => isPriceChar_keep (List.all_eq_true.1 hall x hx))

lemma head_guard_false {x : Char} (hx : x.isDigit = true) (r : List Char) :
    (((x :: r).head? == some ',') || ((x :: r).head? == some '.')) = false := by
  have h1 : ((x :: r).head? == some ',') = false := by
    show (x == ',') = false
    exact digit_beq_false hx (by decide)
  have h2 : ((x :: r).head? == some '.') = false := by
    show (x == '.') = false
    exact digit_beq_false hx (by decide)
  rw [h1, h2]
  rfl

lemma helpersNormalize_shape1 (a b c : List Char) (ha : a.all Char.isDigit = true)
    (hb : b.all Char.isDigit = true) (hc : c.all Char.isDigit = true) (hane : a ≠ []) :
    helpersNormalize (a ++ '.' :: (b ++ ',' :: c)) = some (a ++ b ++ '.' :: c) := by
  obtain ⟨x, xs, rfl⟩ := List.exists_cons_of_ne_nil hane
  have hxd : x.isDigit = true := by
    have h := ha
    rw [List.all_cons, Bool.and_eq_true] at h
    exact h.1
  have hda : '.' ∉ x :: xs := not_mem_of_digits ha (by decide)
  have hdbc : '.' ∉ b ++ ',' :: c := not_mem_sep_digits hb hc (by decide) (by decide)
  have hca : ',' ∉ x :: xs := not_mem_of_digits ha (by decide)
  have hcb : ',' ∉ b := not_mem_of_digits hb (by decide)
  have hcc : ',' ∉ c := not_mem_of_digits hc (by decide)
  have hrd : removeDots ((x :: xs) ++ '.' :: (b ++ ',' :: c)) = (x :: xs) ++ (b ++ ',' :: c) := by
    rw [removeDots_append, removeDots_cons_dot, removeDots_eq_self hda,
      removeDots_eq_self hdbc]
  have hcd : commaToDot ((x :: xs) ++ (b ++ ',' :: c)) = (x :: xs) ++ (b ++ '.' :: c) := by
    rw [commaToDot_append, commaToDot_append, commaToDot_cons_comma,
      commaToDot_eq_self hca, commaToDot_eq_self hcb, commaToDot_eq_self hcc]
  have hclean := helpersClean_id (all_price_shape (x :: xs) b c ha hb hc '.' ',' (by decide) (by decide))
  rw [helpersNormalize, hclean]
  rw [List.cons_append]
  simp only [List.isEmpty_cons, head_guard_false hxd, Bool.false_eq_true, if_false]
  rw [← List.cons_append]
  simp only [any_comma_shape1 (x :: xs) b c, any_sep_append, Bool.true_and, if_true]
  rw [if_pos (rfind_compare_shape1 (x :: xs) b c hb hc)]
  rw [hrd, hcd, List.append_assoc]

lemma helpersNormalize_shape2 (a b c : List Char) (ha : a.all Char.isDigit = true)
    (hb : b.all Char.isDigit = true) (hc : c.all Char.isDigit = true) (hane : a ≠ []) :
    helpersNormalize (a ++ ',' :: (b ++ '.' :: c)) = some (a ++ b ++ '.' :: c) := by
  obtain ⟨x, xs, rfl⟩ := List.exists_cons_of_ne_nil hane
  have hxd : x.isDigit = true := by
    have h := ha
    rw [List.all_cons, Bool.and_eq_true] at h
    exact h.1
  have hca : ',' ∉ x :: xs := not_mem_of_digits ha (by decide)
  have hcbc : ',' ∉ b ++ '.' :: c := not_mem_sep_digits hb hc (by decide) (by decide)
  have hrc : removeCommas ((x :: xs) ++ ',' :: (b ++ '.' :: c)) =
      (x :: xs) ++ (b ++ '.' :: c) := by
    rw [removeCommas_append, removeCommas_cons_comma, removeCommas_eq_self hca,
      removeCommas_eq_self hcbc]
  have hclean := helpersClean_id (all_price_shape (x :: xs) b c ha hb hc ',' '.' (by decide) (by decide))
  rw [helpersNormalize, hclean]
  rw [List.cons_append]
  simp only [List.isEmpty_cons, head_guard_false hxd, Bool.false_eq_true, if_false]
  rw [← List.cons_append]
  simp only [any_dot_shape2 (x :: xs) b c, any_sep_append, Bool.true_and, if_true]
  rw [if_neg (rfind_compare_shape2 (x :: xs) b c hb hc)]
  rw [hrc, ← List.append_assoc]

lemma helpersParts_shape1 (a b c : List Char) (ha : a.all Char.isDigit = true)
    (hb : b.all Char.isDigit = true) (hc : c.all Char.isDigit = true) (hane : a ≠ []) :
    helpersParseParts (a ++ '.' :: (b ++ ',' :: c)) =
      some (natOfDigits (a ++ b ++ c), c.length) := by
  rw [helpersParseParts, helpersNormalize_shape1 a b c ha hb hc hane, Option.some_bind]
  exact decimalParts_one_dot (a ++ b) c (all_digits_append ha hb) hc
    (append_ne_nil_left (append_ne_nil_left hane b) c)

lemma helpersParts_shape2 (a b c : List Char) (ha : a.all Char.isDigit = true)
    (hb : b.all Char.isDigit = true) (hc : c.all Char.isDigit = true) (hane : a ≠ []) :
    helpersParseParts (a ++ ',' :: (b ++ '.' :: c)) =
      some (natOfDigits (a ++ b ++ c), c.length) := by
  rw [helpersParseParts, helpersNormalize_shape2 a b c ha hb hc hane, Option.some_bind]
  exact decimalParts_one_dot (a ++ b) c (all_digits_append ha hb) hc
    (append_ne_nil_left (append_ne_nil_left hane b) c)

lemma zaffariParts_shape1 (a b c : List Char) (ha : a.all Char.isDigit = true)
    (hb : b.all Char.isDigit = true) (hc : c.all Char.isDigit = true) (hane : a ≠ []) :
    zaffariParseParts (a ++ '.' :: (b ++ ',' :: c)) =
      some (natOfDigits (a ++ b ++ c), c.length) := by
  rw [zaffariParseParts, zaffariNormalize_shape1 a b c ha hb hc, Option.some_bind]
  exact decimalParts_one_dot (a ++ b) c (all_digits_append ha hb) hc
    (append_ne_nil_left (append_ne_nil_left hane b) c)

lemma zaffariParts_shape2 (a b c : List Char) (ha : a.all Char.isDigit = true)
    (hb : b.all Char.isDigit = true) (hc : c.all Char.isDigit = true) (hane : a ≠ []) :
    zaffariParseParts (a ++ ',' :: (b ++ '.' :: c)) =
      some (natOfDigits (a ++ b ++ c), b.length + c.length) := by
  rw [zaffariParseParts, zaffariNormalize_shape2 a b c ha hb hc, Option.some_bind]
  rw [decimalParts_one_dot a (b ++ c) ha (all_digits_append hb hc)
    (append_ne_nil_left hane (b ++ c))]
  rw [← List.append_assoc, List.length_append]

/-- C4 (corrected). For price strings of digits with both separators
present, `parse_price` of utils/helpers.py treats the separator whose
last occurrence comes later as the decimal separator, so both the
Brazilian shape `a.b,c` and the US shape `a,b.c` parse to the same
value; the Zaffari and Carrefour scraper parsers instead always treat
the dot as a thousands separator and the comma as the decimal
separator, so they agree on the Brazilian shape but read `a,b.c` with
the comma as the decimal point (e.g. `1,234.56` becomes 1.23456). -/
theorem bothSeparators_rules (a b c : List Char) (ha : a.all Char.isDigit = true)
    (hb : b.all Char.isDigit = true) (hc : c.all Char.isDigit = true) (hane : a ≠ []) :
    helpersParsePrice (a ++ '.' :: (b ++ ',' :: c)) =
      some ((natOfDigits (a ++ b ++ c) : ℚ) / 10 ^ c.length) ∧
    helpersParsePrice (a ++ ',' :: (b ++ '.' :: c)) =
      some ((natOfDigits (a ++ b ++ c) : ℚ) / 10 ^ c.length) ∧
    zaffariParsePrice (a ++ '.' :: (b ++ ',' :: c)) =
      some ((natOfDigits (a ++ b ++ c) : ℚ) / 10 ^ c.length) ∧
    carrefourParsePrice (a ++ '.' :: (b ++ ',' :: c)) =
      some ((natOfDigits (a ++ b ++ c) : ℚ) / 10 ^ c.length) ∧
    zaffariParsePrice (a ++ ',' :: (b ++ '.' :: c)) =
      some ((natOfDigits (a ++ b ++ c) : ℚ) / 10 ^ (b.length + c.length)) ∧
    carrefourParsePrice (a ++ ',' :: (b ++ '.' :: c)) =
      some ((natOfDigits (a ++ b ++ c) : ℚ) / 10 ^ (b.length + c.length)) := by
  rw [carrefourPrice_eq_zaffari]
  refine ⟨?_, ?_, ?_, ?_, ?_, ?_⟩
  · rw [helpersParsePrice, helpersParts_shape1 a b c ha hb hc hane, Option.map_some']
    rfl
  · rw [helpersParsePrice, helpersParts_shape2 a b c ha hb hc hane, Option.map_some']
    rfl
  · rw [zaffariParsePrice, zaffariParts_shape1 a b c ha hb hc hane, Option.map_some']
    rfl
  · rw [zaffariParsePrice, zaffariParts_shape1 a b c ha hb hc hane, Option.map_some']
    rfl
  · rw [zaffariParsePrice, zaffariParts_shape2 a b c ha hb hc hane, Option.map_some']
    rfl
  · rw [zaffariParsePrice, zaffariParts_shape2 a b c ha hb hc hane, Option.map_some']
    rfl

/-- C4 witness: `bothSeparators_rules` at the spec's examples
`"1.234,56"` and `"1,234.56"`: the helpers parser reads both as
1234.56, the Zaffari parser reads the US shape as 1.23456. -/
theorem bothSeparators_rules_witness :
    helpersParsePrice ("1.234,56".toList) = some ((123456 : ℚ) / 100) ∧
    helpersParsePrice ("1,234.56".toList) = some ((123456 : ℚ) / 100) ∧
    zaffariParsePrice ("1,234.56".toList) = some ((123456 : ℚ) / 100000) := by
  have h := bothSeparators_rules ("1".toList) ("234".toList) ("56".toList)
    (by decide) (by decide) (by decide) (by decide)
  have e1 : "1".toList ++ '.' :: ("234".toList ++ ',' :: "56".toList) = "1.234,56".toList := by
    decide
  have e2 : "1".toList ++ ',' :: ("234".toList ++ '.' :: "56".toList) = "1,234.56".toList := by
    decide
  have en : natOfDigits ("1".toList ++ "234".toList ++ "56".toList) = 123456 := by decide
  have h1 := h.1
  have h2 := h.2.1
  have h5 := h.2.2.2.2.1
  rw [e1, en] at h1
  rw [e2, en] at h2
  rw [e2, en] at h5
  refine ⟨?_, ?_, ?_⟩
  · rw [h1]
    norm_num
  · rw [h2]
    norm_num
  · rw [h5]
    norm_num

/-- C4 counterexample: the claim says every cited parser reads the
separator appearing last in the string as the decimal separator, so
`"1,234.56"` would parse to 1234.56; the Zaffari scraper parser instead
returns 1.23456. -/
theorem bothSeparators_zaffari_counterexample :
    zaffariParsePrice ("1,234.56".toList) = some ((123456 : ℚ) / 100000) ∧
    (123456 : ℚ) / 100000 ≠ 123456 / 100 := by
  constructor
  · have h : zaffariParseParts ("1,234.56".toList) = some (123456, 5) := by decide
    rw [zaffariParsePrice, h, Option.map_some']
    norm_num [partsVal]
  · norm_num

lemma round2R_nonneg {x : ℝ} (hx : 0 ≤ x) : 0 ≤ round2R x := by
  rw [round2R]
  apply div_nonneg _ (by norm_num)
  rw [round_eq]
  have h1 : (0 : ℝ) ≤ 100 * x + 1 / 2 := by linarith
  exact_mod_cast Int.floor_nonneg.2 h1

lemma getStdDeviation_eq (history : List PriceEntry) (days : ℚ)
    (h : 2 ≤ (getPriceHistory history days).length) :
    getStdDeviation history days =
      some (round2Q (mean ((getPriceHistory history days).map (·.price))),
            round2R (stdDev ((getPriceHistory history days).map (·.price)))) := by
  simp only [getStdDeviation]
  rw [if_neg (not_lt.2 h)]

lemma getStdDeviation_sd (history : List PriceEntry) (days : ℚ) (avg : ℚ) (sd : ℝ)
    (h : getStdDeviation history days = some (avg, sd)) :
    sd = round2R (stdDev ((getPriceHistory history days).map (·.price))) ∧ 0 ≤ sd := by
  simp only [getStdDeviation] at h
  by_cases hl : (getPriceHistory history days).length < 2
  · rw [if_pos hl] at h
    cases h
  · rw [if_neg hl] at h
    have h2 := Prod.mk.injEq _ _ _ _ ▸ Option.some.inj h
    refine ⟨h2.2.symm, ?_⟩
    rw [← h2.2]
    exact round2R_nonneg (Real.sqrt_nonneg _)

lemma belowStdDeviation_eval (p : Product) (days : ℚ) (k : ℕ) (cp : ℚ) (avg : ℚ) (sd : ℝ)
    (hcp : p.currentPrice = some cp) (hne : cp ≠ 0)
    (hstats : getStdDeviation p.history days = some (avg, sd)) :
    belowStdDeviation p days k =
      if (cp : ℝ) ≤ (avg : ℝ) - sd * k then
        some ⟨p.id, avg, sd, (avg : ℝ) - sd * k, k, days, ((avg : ℝ) - sd * k) - (cp : ℝ)⟩
      else none := by
  simp only [belowStdDeviation, hcp, hstats]
  rw [if_neg hne]

lemma prodFlat_history (days : ℚ) (h : 2 ≤ days) :
    getPriceHistory prodFlat.history days = prodFlat.history := by
  have h0 : decide ((0 : ℚ) ≤ days) = true := decide_eq_true (by linarith)
  have h1 : decide ((1 : ℚ) ≤ days) = true := decide_eq_true (by linarith)
  have h2 : decide ((2 : ℚ) ≤ days) = true := decide_eq_true h
  simp [getPriceHistory, prodFlat, List.filter_cons, h0, h1, h2]

lemma mean_flat : mean [10, 10, 10] = 10 := by
  norm_num [mean, List.sum_cons, List.sum_nil]

lemma stdDev_flat : stdDev [10, 10, 10] = 0 := by
  have hv : variance [10, 10, 10] = 0 := by
    norm_num [variance, mean_flat, List.sum_cons, List.sum_nil]
  rw [stdDev, hv]
  rw [Rat.cast_zero, Real.sqrt_zero]

lemma round2Q_flat : round2Q 10 = 10 := by
  norm_num [round2Q, round_eq]

lemma round2R_zero : round2R 0 = 0 := by
  rw [round2R, mul_zero, round_zero]
  norm_num

lemma prodFlat_stats (days : ℚ) (h : 2 ≤ days) :
    getStdDeviation prodFlat.history days = some (10, 0) := by
  have hmap : (getPriceHistory prodFlat.history days).map (·.price) = [10, 10, 10] := by
    rw [prodFlat_history days h]
    decide
  rw [getStdDeviation_eq prodFlat.history days (by rw [prodFlat_history days h]; decide), hmap,
    mean_flat, stdDev_flat, round2Q_flat, round2R_zero]

lemma prodFlat_below (days : ℚ) (h : 2 ≤ days) (k : ℕ) :
    belowStdDeviation prodFlat days k = some ⟨1, 10, 0, 10, k, days, 0⟩ := by
  rw [belowStdDeviation_eval prodFlat days k 10 10 0 rfl (by norm_num)
    (prodFlat_stats days h)]
  rw [if_pos (by norm_num)]
  simp only [Option.some.injEq, DealInfo.mk.injEq]
  norm_num [prodFlat]

lemma analyzePeriod_eval (cp : ℚ) (history : List PriceEntry) (days : ℚ) (avg : ℚ) (sd : ℝ)
    (h : getStdDeviation history days = some (avg, sd)) :
    analyzePeriod cp history days =
      some ⟨avg, sd, (avg : ℝ) - sd, (avg : ℝ) - sd * 2,
        (cp : ℝ) ≤ (avg : ℝ) - sd, (cp : ℝ) ≤ (avg : ℝ) - sd * 2⟩ := by
  simp only [analyzePeriod, h]

/-- C1 counterexample: for the history `[10, 10, 10]` the standard
deviation is 0 and both thresholds equal the mean 10, but a current
price of exactly 10 IS classified as a deal at both sigma levels
(`get_products_below_std_deviation` uses an inclusive comparison), so
the claim that it is not classified fails. -/
theorem equalMean_counterexample :
    getStdDeviation prodFlat.history 30 = some (10, 0) ∧
    (belowStdDeviation prodFlat 30 1).isSome = true ∧
    (belowStdDeviation prodFlat 30 2).isSome = true := by
  refine ⟨prodFlat_stats 30 (by norm_num), ?_, ?_⟩
  · rw [prodFlat_below 30 (by norm_num) 1]
    rfl
  · rw [prodFlat_below 30 (by norm_num) 2]
    rfl

/-- C1 (corrected). For the identical-price history `[10, 10, 10]`, σ
is 0 and both thresholds equal the mean 10; a current price of exactly
10 IS classified as a deal under both the 1σ and 2σ thresholds, by
`get_products_below_std_deviation` and by `get_product_std_analysis`,
because the comparison is the inclusive `current_price <= threshold`. -/
theorem equalMean_price_is_classified :
    prodFlat.currentPrice = some 10 ∧
    getStdDeviation prodFlat.history 30 = some (10, 0) ∧
    belowStdDeviation prodFlat 30 1 = some ⟨1, 10, 0, 10, 1, 30, 0⟩ ∧
    belowStdDeviation prodFlat 30 2 = some ⟨1, 10, 0, 10, 2, 30, 0⟩ ∧
    analyzePeriod 10 prodFlat.history 30 = some prodFlatAnalysis ∧
    prodFlatAnalysis.isBelow1Std ∧ prodFlatAnalysis.isBelow2Std := by
  refine ⟨rfl, prodFlat_stats 30 (by norm_num), prodFlat_below 30 (by norm_num) 1,
    prodFlat_below 30 (by norm_num) 2,
    analyzePeriod_eval 10 prodFlat.history 30 10 0 (prodFlat_stats 30 (by norm_num)), ?_, ?_⟩
  · show ((10 : ℚ) : ℝ) ≤ ((10 : ℚ) : ℝ) - 0
    norm_num
  · show ((10 : ℚ) : ℝ) ≤ ((10 : ℚ) : ℝ) - 0 * 2
    norm_num

/-- C6 (confirmed): with fewer than 2 samples in the trailing window the
statistics computation returns `None` — not zero and not an error. -/
theorem stats_absent_small_window (history : List PriceEntry) (days : ℚ)
    (h : (getPriceHistory history days).length < 2) :
    getStdDeviation history days = none := by
  simp only [getStdDeviation]
  rw [if_pos h]

/-- C6 witness: a single sample in the window yields `None`. -/
theorem stats_absent_small_window_witness :
    (getPriceHistory [⟨10, 0⟩] 30).length < 2 ∧ getStdDeviation [⟨10, 0⟩] 30 = none :=
  ⟨by decide, stats_absent_small_window [⟨10, 0⟩] 30 (by decide)⟩

/-- C7 counterexample: for the window samples `[1, 2, 2]` the
arithmetic mean is 5/3, but the statistics computation returns the
2-decimal rounded value 1.67 = 167/100 as its mean component, so the
returned value is not the arithmetic mean itself. -/
theorem stats_rounded_mean_counterexample :
    (getStdDeviation [⟨1, 0⟩, ⟨2, 0⟩, ⟨2, 0⟩] 30).map Prod.fst = some (167 / 100 : ℚ) ∧
    mean [1, 2, 2] = 5 / 3 ∧ (167 / 100 : ℚ) ≠ 5 / 3 := by
  have hmap : (getPriceHistory [⟨1, 0⟩, ⟨2, 0⟩, ⟨2, 0⟩] 30).map (·.price) = [1, 2, 2] := by
    decide
  have hmean : mean [1, 2, 2] = 5 / 3 := by
    norm_num [mean, List.sum_cons, List.sum_nil]
  have hround : round2Q (5 / 3) = 167 / 100 := by
    norm_num [round2Q, round_eq]
  refine ⟨?_, hmean, by norm_num⟩
  rw [getStdDeviation_eq _ 30 (by decide), hmap, hmean, hround, Option.map_some']

/-- C7 (corrected). For a window with at least 2 samples, the
statistics computation returns, rounded to 2 decimals, the arithmetic
mean (`mean · n = sum`) and the population standard deviation: the
square root of the sum of squared deviations from the mean divided by
the sample count n (not n − 1), so `σ ≥ 0` and `σ² · n` equals the sum
of squared deviations. -/
theorem stats_population_formula (history : List PriceEntry) (days : ℚ)
    (h : 2 ≤ (getPriceHistory history days).length) :
    getStdDeviation history days =
      some (round2Q (mean ((getPriceHistory history days).map (·.price))),
            round2R (stdDev ((getPriceHistory history days).map (·.price)))) ∧
    mean ((getPriceHistory history days).map (·.price)) *
        (((getPriceHistory history days).map (·.price)).length : ℚ) =
      ((getPriceHistory history days).map (·.price)).sum ∧
    0 ≤ stdDev ((getPriceHistory history days).map (·.price)) ∧
    stdDev ((getPriceHistory history days).map (·.price)) ^ 2 *
        ((((getPriceHistory history days).map (·.price)).length : ℚ) : ℝ) =
      (((((getPriceHistory history days).map (·.price)).map
          (fun p => (p - mean ((getPriceHistory history days).map (·.price))) ^ 2)).sum : ℚ) :
        ℝ) := by
  have hn : ((((getPriceHistory history days).map (·.price)).length : ℕ) : ℚ) ≠ 0 := by
    rw [List.length_map]
    have hpos : 0 < (getPriceHistory history days).length := by omega
    have : (0 : ℚ) < ((getPriceHistory history days).length : ℚ) := by exact_mod_cast hpos
    exact ne_of_gt this
  have hvar : 0 ≤ variance ((getPriceHistory history days).map (·.price)) := by
    rw [variance]
    apply div_nonneg _ (by positivity)
    apply List.sum_nonneg
    intro x hx
    obtain ⟨p, -, rfl⟩ := List.mem_map.1 hx
    positivity
  have hvarmul : variance ((getPriceHistory history days).map (·.price)) *
      (((getPriceHistory history days).map (·.price)).length : ℚ) =
      (((getPriceHistory history days).map (·.price)).map
        (fun p => (p - mean ((getPriceHistory history days).map (·.price))) ^ 2)).sum := by
    rw [variance, div_mul_cancel₀ _ hn]
  refine ⟨getStdDeviation_eq history days h, ?_, Real.sqrt_nonneg _, ?_⟩
  · rw [mean, div_mul_cancel₀ _ hn]
  · rw [stdDev, Real.sq_sqrt (by exact_mod_cast hvar)]
    exact_mod_cast hvarmul

/-- C7 witness: `stats_population_formula` at the concrete window
samples `[1, 2, 2]`. -/
theorem stats_population_formula_witness :
    2 ≤ (getPriceHistory [⟨1, 0⟩, ⟨2, 0⟩, ⟨2, 0⟩] 30).length ∧
    (getStdDeviation [⟨1, 0⟩, ⟨2, 0⟩, ⟨2, 0⟩] 30 =
      some (round2Q (mean ((getPriceHistory [⟨1, 0⟩, ⟨2, 0⟩, ⟨2, 0⟩] 30).map (·.price))),
            round2R (stdDev ((getPriceHistory [⟨1, 0⟩, ⟨2, 0⟩, ⟨2, 0⟩] 30).map (·.price)))) ∧
    mean ((getPriceHistory [⟨1, 0⟩, ⟨2, 0⟩, ⟨2, 0⟩] 30).map (·.price)) *
        (((getPriceHistory [⟨1, 0⟩, ⟨2, 0⟩, ⟨2, 0⟩] 30).map (·.price)).length : ℚ) =
      ((getPriceHistory [⟨1, 0⟩, ⟨2, 0⟩, ⟨2, 0⟩] 30).map (·.price)).sum ∧
    0 ≤ stdDev ((getPriceHistory [⟨1, 0⟩, ⟨2, 0⟩, ⟨2, 0⟩] 30).map (·.price)) ∧
    stdDev ((getPriceHistory [⟨1, 0⟩, ⟨2, 0⟩, ⟨2, 0⟩] 30).map (·.price)) ^ 2 *
        ((((getPriceHistory [⟨1, 0⟩, ⟨2, 0⟩, ⟨2, 0⟩] 30).map (·.price)).length : ℚ) : ℝ) =
      (((((getPriceHistory [⟨1, 0⟩, ⟨2, 0⟩, ⟨2, 0⟩] 30).map (·.price)).map
          (fun p => (p - mean ((getPriceHistory [⟨1, 0⟩, ⟨2, 0⟩, ⟨2, 0⟩] 30).map (·.price))) ^
            2)).sum : ℚ) : ℝ)) :=
  ⟨by decide, stats_population_formula [⟨1, 0⟩, ⟨2, 0⟩, ⟨2, 0⟩] 30 (by decide)⟩

lemma prodSpread_map : (getPriceHistory prodSpread.history 30).map (·.price) = [0, 1, 2] := by
  decide

lemma mean_spread : mean [0, 1, 2] = 1 := by
  norm_num [mean, List.sum_cons, List.sum_nil]

lemma variance_spread : variance [0, 1, 2] = 2 / 3 := by
  norm_num [variance, mean_spread, List.sum_cons, List.sum_nil]

lemma stdDev_spread : stdDev [0, 1, 2] = Real.sqrt (((2 : ℝ)) / 3) := by
  rw [stdDev, variance_spread]
  norm_num

lemma sqrt_spread_lb : (815 / 1000 : ℝ) ≤ Real.sqrt ((2 : ℝ) / 3) := by
  rw [Real.le_sqrt' (by norm_num)]
  norm_num

lemma sqrt_spread_ub : Real.sqrt ((2 : ℝ) / 3) < 819 / 1000 := by
  rw [Real.sqrt_lt' (by norm_num)]
  norm_num

lemma round_sd_spread : round2R (stdDev [0, 1, 2]) = 82 / 100 := by
  rw [stdDev_spread, round2R, round_eq]
  have hfloor : ⌊(100 : ℝ) * Real.sqrt ((2 : ℝ) / 3) + 1 / 2⌋ = 82 := by
    rw [Int.floor_eq_iff]
    constructor
    · have := sqrt_spread_lb
      push_cast
      linarith
    · have := sqrt_spread_ub
      push_cast
      linarith
  rw [hfloor]
  norm_num

lemma prodSpread_stats : getStdDeviation prodSpread.history 30 = some (1, 82 / 100) := by
  rw [getStdDeviation_eq prodSpread.history 30 (by decide), prodSpread_map]
  rw [mean_spread, show round2Q 1 = 1 from by norm_num [round2Q, round_eq], round_sd_spread]

/-- C2 counterexample: for window samples `[0, 1, 2]` and current price
0.181, the code computes the threshold from the ROUNDED statistics
(mean 1, σ rounded to 0.82, threshold 0.18) and does not classify the
product as a deal, although under the unrounded threshold
`mean − σ = 1 − √(2/3) ≈ 0.1835` the claim says it would be classified
(0.181 ≤ 0.1835). So the unrounded values are not retained for the
threshold math. -/
theorem rounded_threshold_counterexample :
    belowStdDeviation prodSpread 30 1 = none ∧
    ((181 / 1000 : ℚ) : ℝ) ≤ ((mean [0, 1, 2] : ℚ) : ℝ) - stdDev [0, 1, 2] * 1 := by
  constructor
  · rw [belowStdDeviation_eval prodSpread 30 1 (181 / 1000) 1 (82 / 100) rfl (by norm_num)
      prodSpread_stats]
    rw [if_neg]
    push_cast
    norm_num
  · rw [mean_spread, stdDev_spread]
    have := sqrt_spread_ub
    push_cast
    linarith

/-- C2 (corrected). The statistics engine returns the mean and standard
deviation rounded to 2 decimals, and the deal classification computes
its threshold from those ROUNDED values: the product is kept exactly
when `current ≤ round₂(mean) − round₂(σ) · k`; no unrounded values are
retained for the threshold math. -/
theorem thresholds_use_rounded_stats (p : Product) (days : ℚ) (k : ℕ) (cp : ℚ)
    (hcp : p.currentPrice = some cp) (hne : cp ≠ 0)
    (hlen : 2 ≤ (getPriceHistory p.history days).length) :
    getStdDeviation p.history days =
      some (round2Q (mean ((getPriceHistory p.history days).map (·.price))),
            round2R (stdDev ((getPriceHistory p.history days).map (·.price)))) ∧
    ((belowStdDeviation p days k).isSome = true ↔
      (cp : ℝ) ≤ (round2Q (mean ((getPriceHistory p.history days).map (·.price))) : ℝ) -
        round2R (stdDev ((getPriceHistory p.history days).map (·.price))) * k) := by
  refine ⟨getStdDeviation_eq p.history days hlen, ?_⟩
  rw [belowStdDeviation_eval p days k cp _ _ hcp hne (getStdDeviation_eq p.history days hlen)]
  by_cases hle : (cp : ℝ) ≤
      (round2Q (mean ((getPriceHistory p.history days).map (·.price))) : ℝ) -
        round2R (stdDev ((getPriceHistory p.history days).map (·.price))) * k
  · rw [if_pos hle]
    simp [hle]
  · rw [if_neg hle]
    simp [hle]

/-- C2 witness: `thresholds_use_rounded_stats` at `prodFlat` with
window 30 days and one standard deviation. -/
theorem thresholds_use_rounded_stats_witness :
    prodFlat.currentPrice = some 10 ∧ (10 : ℚ) ≠ 0 ∧
    2 ≤ (getPriceHistory prodFlat.history 30).length ∧
    (getStdDeviation prodFlat.history 30 =
      some (round2Q (mean ((getPriceHistory prodFlat.history 30).map (·.price))),
            round2R (stdDev ((getPriceHistory prodFlat.history 30).map (·.price)))) ∧
    ((belowStdDeviation prodFlat 30 1).isSome = true ↔
      ((10 : ℚ) : ℝ) ≤ (round2Q (mean ((getPriceHistory prodFlat.history 30).map (·.price))) : ℝ) -
        round2R (stdDev ((getPriceHistory prodFlat.history 30).map (·.price))) * ((1 : ℕ) : ℝ))) :=
  ⟨rfl, by norm_num, by decide,
    thresholds_use_rounded_stats prodFlat 30 1 10 rfl (by norm_num) (by decide)⟩

lemma belowStdDeviation_some_inv (p : Product) (days : ℚ) (k : ℕ) (info : DealInfo)
    (h : belowStdDeviation p days k = some info) :
    ∃ cp avg sd, p.currentPrice = some cp ∧ cp ≠ 0 ∧
      getStdDeviation p.history days = some (avg, sd) ∧
      (cp : ℝ) ≤ (avg : ℝ) - sd * k ∧
      info = ⟨p.id, avg, sd, (avg : ℝ) - sd * k, k, days, ((avg : ℝ) - sd * k) - (cp : ℝ)⟩ := by
  rcases hc : p.currentPrice with - | cp
  · simp only [belowStdDeviation, hc] at h
    exact Option.noConfusion h
  · rcases hs : getStdDeviation p.history days with - | ⟨avg, sd⟩
    · simp only [belowStdDeviation, hc, hs] at h
      by_cases h0 : cp = 0
      · rw [if_pos h0] at h
        exact Option.noConfusion h
      · rw [if_neg h0] at h
        exact Option.noConfusion h
    · simp only [belowStdDeviation, hc, hs] at h
      by_cases h0 : cp = 0
      · rw [if_pos h0] at h
        exact Option.noConfusion h
      · rw [if_neg h0] at h
        by_cases hle : (cp : ℝ) ≤ (avg : ℝ) - sd * k
        · rw [if_pos hle] at h
          exact ⟨cp, avg, sd, rfl, h0, rfl, hle, (Option.some.inj h).symm⟩
        · rw [if_neg hle] at h
          exact Option.noConfusion h

lemma single_below (p : Product) (days : ℚ) (k : ℕ) (d : DealInfo)
    (h : belowStdDeviation p days k = some d) :
    getProductsBelowStdDeviation [p] days k = [d] := by
  simp [getProductsBelowStdDeviation, h]

/-- C5 counterexample: on the single product `prodFlat` the aggregation
returns six keyed lists — the 1σ classifications are included (key
`(1, 30)` is present and non-empty) and the same product appears once
per (sigma, window) pair with no deduplication, no margin sort and no
single merged list of 2σ classifications. -/
theorem std_alerts_keyed_counterexample :
    (getAllStdDeviationAlerts [prodFlat]).map Prod.fst =
      [(1, 30), (2, 30), (1, 90), (2, 90), (1, 180), (2, 180)] ∧
    (getAllStdDeviationAlerts [prodFlat]).map (fun kv => kv.2.map (·.productId)) =
      [[1], [1], [1], [1], [1], [1]] := by
  constructor
  · rfl
  · have h1 := single_below prodFlat 30 1 (flatDeal 1 30) (prodFlat_below 30 (by norm_num) 1)
    have h2 := single_below prodFlat 30 2 (flatDeal 2 30) (prodFlat_below 30 (by norm_num) 2)
    have h3 := single_below prodFlat 90 1 (flatDeal 1 90) (prodFlat_below 90 (by norm_num) 1)
    have h4 := single_below prodFlat 90 2 (flatDeal 2 90) (prodFlat_below 90 (by norm_num) 2)
    have h5 := single_below prodFlat 180 1 (flatDeal 1 180) (prodFlat_below 180 (by norm_num) 1)
    have h6 := single_below prodFlat 180 2 (flatDeal 2 180) (prodFlat_below 180 (by norm_num) 2)
    simp [getAllStdDeviationAlerts, h1, h2, h3, h4, h5, h6, flatDeal]

/-- C5 (corrected). `get_all_std_deviation_alerts` returns a keyed
collection, not a single ranked list: one entry per (sigma level,
window) pair for sigma 1 and 2 and windows 30/90/180 in loop order,
each holding exactly the classifications of
`get_products_below_std_deviation` for that pair in product order; a
product may appear under several keys (no deduplication by maximum
margin and no sorting), and every entry under key `(k, d)` is a
classification computed with that sigma level and window whose margin
`diff` is nonnegative. -/
theorem std_alerts_aggregation_spec (products : List Product) :
    getAllStdDeviationAlerts products =
      [((1, 30), getProductsBelowStdDeviation products 30 1),
       ((2, 30), getProductsBelowStdDeviation products 30 2),
       ((1, 90), getProductsBelowStdDeviation products 90 1),
       ((2, 90), getProductsBelowStdDeviation products 90 2),
       ((1, 180), getProductsBelowStdDeviation products 180 1),
       ((2, 180), getProductsBelowStdDeviation products 180 2)] ∧
    ∀ (k : ℕ) (d : ℚ) (info : DealInfo), info ∈ getProductsBelowStdDeviation products d k →
      info.numStdDev = k ∧ info.days = d ∧ 0 ≤ info.diff := by
  refine ⟨rfl, ?_⟩
  intro k d info hmem
  rw [getProductsBelowStdDeviation, List.mem_filterMap] at hmem
  obtain ⟨p, -, hsome⟩ := hmem
  obtain ⟨cp, avg, sd, -, -, -, hle, rfl⟩ := belowStdDeviation_some_inv p d k info hsome
  refine ⟨rfl, rfl, ?_⟩
  show (0 : ℝ) ≤ (avg : ℝ) - sd * (k : ℝ) - (cp : ℝ)
  linarith

/-- C5 witness: `std_alerts_aggregation_spec` applied to the concrete
classification of `prodFlat` in the 30-day 1σ list. -/
theorem std_alerts_aggregation_spec_witness :
    flatDeal 1 30 ∈ getProductsBelowStdDeviation [prodFlat] 30 1 ∧
    ((flatDeal 1 30).numStdDev = 1 ∧ (flatDeal 1 30).days = 30 ∧ 0 ≤ (flatDeal 1 30).diff) := by
  have hmem : flatDeal 1 30 ∈ getProductsBelowStdDeviation [prodFlat] 30 1 := by
    rw [single_below prodFlat 30 1 (flatDeal 1 30) (prodFlat_below 30 (by norm_num) 1)]
    exact List.mem_singleton.2 rfl
  exact ⟨hmem, (std_alerts_aggregation_spec [prodFlat]).2 1 30 (flatDeal 1 30) hmem⟩

/-- C8 (confirmed). For any window statistics the analysis satisfies
`threshold_2 ≤ threshold_1 ≤ mean` (σ is rounded from a square root and
stays nonnegative), a 2σ classification implies the 1σ classification
in the same period analysis, and every product classified by the deal
scan at 2 standard deviations is also classified at 1 standard
deviation for the same window. -/
theorem analysis_threshold_order (cp : ℚ) (history : List PriceEntry) (days : ℚ)
    (a : PeriodAnalysis) (h : analyzePeriod cp history days = some a) :
    (a.threshold2 ≤ a.threshold1 ∧ a.threshold1 ≤ (a.avgPrice : ℝ) ∧
      (a.isBelow2Std → a.isBelow1Std)) ∧
    ∀ (p : Product) (info : DealInfo), belowStdDeviation p days 2 = some info →
      (belowStdDeviation p days 1).isSome = true := by
  constructor
  · simp only [analyzePeriod] at h
    rcases hs : getStdDeviation history days with - | ⟨avg, sd⟩
    · rw [hs] at h
      cases h
    · rw [hs] at h
      have hsd := (getStdDeviation_sd history days avg sd hs).2
      cases Option.some.inj h
      refine ⟨?_, ?_, ?_⟩
      · show (avg : ℝ) - sd * 2 ≤ (avg : ℝ) - sd
        linarith
      · show (avg : ℝ) - sd ≤ (avg : ℝ)
        linarith
      · intro h2
        show (cp : ℝ) ≤ (avg : ℝ) - sd
        have h2' : (cp : ℝ) ≤ (avg : ℝ) - sd * 2 := h2
        linarith
  · intro p info hsome
    obtain ⟨pcp, avg, sd, hc, h0, hs, hle, -⟩ := belowStdDeviation_some_inv p days 2 info hsome
    have hsd := (getStdDeviation_sd p.history days avg sd hs).2
    rw [belowStdDeviation_eval p days 1 pcp avg sd hc h0 hs]
    rw [if_pos (by push_cast at hle ⊢; linarith)]
    rfl

/-- C8 witness: `analysis_threshold_order` on the concrete analysis of
`prodFlat` over the 30-day window. -/
theorem analysis_threshold_order_witness :
    analyzePeriod 10 prodFlat.history 30 = some prodFlatAnalysis ∧
    ((prodFlatAnalysis.threshold2 ≤ prodFlatAnalysis.threshold1 ∧
      prodFlatAnalysis.threshold1 ≤ (prodFlatAnalysis.avgPrice : ℝ) ∧
      (prodFlatAnalysis.isBelow2Std → prodFlatAnalysis.isBelow1Std)) ∧
    ∀ (p : Product) (info : DealInfo), belowStdDeviation p 30 2 = some info →
      (belowStdDeviation p 30 1).isSome = true) := by
  have h : analyzePeriod 10 prodFlat.history 30 = some prodFlatAnalysis :=
    analyzePeriod_eval 10 prodFlat.history 30 10 0 (prodFlat_stats 30 (by norm_num))
  exact ⟨h, analysis_threshold_order 10 prodFlat.history 30 prodFlatAnalysis h⟩

/-- C9 (confirmed). For every URL rejected by the store's URL
validation, `scrape_product` returns the immediate hard-failure record
with its error message set, independent of everything after the guard:
no delay, page fetch or API call runs, so the network-request count is
zero. -/
theorem invalid_url_no_network (url : String) (rest : String → ScrapedProduct × ℕ) :
    (zaffariValidateUrl url = false →
      zaffariScrapeProduct url rest = (zaffariHardFailure url, 0) ∧
      (zaffariScrapeProduct url rest).1.error ≠ none ∧
      (zaffariScrapeProduct url rest).2 = 0) ∧
    (carrefourValidateUrl url = false →
      carrefourScrapeProduct url rest = (carrefourHardFailure url, 0) ∧
      (carrefourScrapeProduct url rest).1.error ≠ none ∧
      (carrefourScrapeProduct url rest).2 = 0) := by
  constructor
  · intro h
    have he : zaffariScrapeProduct url rest = (zaffariHardFailure url, 0) := by
      rw [zaffariScrapeProduct, if_neg (by rw [h]; simp)]
    refine ⟨he, ?_, by rw [he]⟩
    rw [he]
    simp [zaffariHardFailure]
  · intro h
    have he : carrefourScrapeProduct url rest = (carrefourHardFailure url, 0) := by
      rw [carrefourScrapeProduct, if_neg (by rw [h]; simp)]
    refine ⟨he, ?_, by rw [he]⟩
    rw [he]
    simp [carrefourHardFailure]

/-- C9 witness: `invalid_url_no_network` at a URL of neither store,
with an abstract continuation that would report 7 network requests. -/
theorem invalid_url_no_network_witness :
    (zaffariScrapeProduct "https://example.com/x" (fun u => (zaffariHardFailure u, 7)) =
        (zaffariHardFailure "https://example.com/x", 0) ∧
      (zaffariScrapeProduct "https://example.com/x"
          (fun u => (zaffariHardFailure u, 7))).1.error ≠ none ∧
      (zaffariScrapeProduct "https://example.com/x" (fun u => (zaffariHardFailure u, 7))).2 = 0) ∧
    (carrefourScrapeProduct "https://example.com/x" (fun u => (zaffariHardFailure u, 7)) =
        (carrefourHardFailure "https://example.com/x", 0) ∧
      (carrefourScrapeProduct "https://example.com/x"
          (fun u => (zaffariHardFailure u, 7))).1.error ≠ none ∧
      (carrefourScrapeProduct "https://example.com/x"
          (fun u => (zaffariHardFailure u, 7))).2 = 0) :=
  ⟨(invalid_url_no_network "https://example.com/x" (fun u => (zaffariHardFailure u, 7))).1
      (by decide),
    (invalid_url_no_network "https://example.com/x" (fun u => (zaffariHardFailure u, 7))).2
      (by decide)⟩

/-- C10 counterexample: for a product whose stored `lowest_price` is 0
(a set value), recording a new price 5 stores `lowest_price = 5`, not
`min(0, 5) = 0` — `lowest_price or price` treats the falsy Decimal 0 as
missing — so the stored lowest price increases. -/
theorem bounds_update_zero_counterexample :
    prodZero.lowestPrice = some 0 ∧
    (updateProductPrice prodZero 5).lowestPrice = some 5 ∧
    (5 : ℚ) ≠ min 0 5 := by
  refine ⟨rfl, ?_, by norm_num⟩
  show some (min (pyDecimalOr prodZero.lowestPrice 5) 5) = some 5
  norm_num [pyDecimalOr, prodZero]

/-- C10 (corrected). For every product whose `lowest_price` and
`highest_price` are set to nonzero values, recording a scraped price p
stores `lowest_price = min(old lowest, p)` and
`highest_price = max(old highest, p)`, the lowest price never
increases, the highest never decreases, `lowest ≤ highest` holds after
the update, and `current_price` becomes p. (With a stored bound of 0
the Python `or` falls back to p, which is what the counterexample
exhibits.) -/
theorem bounds_update_spec (p : Product) (l h price : ℚ) (hl : p.lowestPrice = some l)
    (hh : p.highestPrice = some h) (hl0 : l ≠ 0) (hh0 : h ≠ 0) :
    (updateProductPrice p price).lowestPrice = some (min l price) ∧
    (updateProductPrice p price).highestPrice = some (max h price) ∧
    min l price ≤ l ∧ h ≤ max h price ∧ min l price ≤ max h price ∧
    (updateProductPrice p price).currentPrice = some price := by
  have hlo : pyDecimalOr p.lowestPrice price = l := by
    simp only [pyDecimalOr, hl]
    rw [if_neg hl0]
  have hho : pyDecimalOr p.highestPrice price = h := by
    simp only [pyDecimalOr, hh]
    rw [if_neg hh0]
  refine ⟨?_, ?_, min_le_left l price, le_max_left h price,
    le_trans (min_le_right l price) (le_max_right h price), rfl⟩
  · show some (min (pyDecimalOr p.lowestPrice price) price) = some (min l price)
    rw [hlo]
  · show some (max (pyDecimalOr p.highestPrice price) price) = some (max h price)
    rw [hho]

/-- C10 witness: `bounds_update_spec` on `prodFlat` (bounds 10, 10)
with a newly scraped price of 7. -/
theorem bounds_update_spec_witness :
    prodFlat.lowestPrice = some 10 ∧ prodFlat.highestPrice = some 10 ∧
    ((updateProductPrice prodFlat 7).lowestPrice = some (min 10 7) ∧
     (updateProductPrice prodFlat 7).highestPrice = some (max 10 7) ∧
     min (10 : ℚ) 7 ≤ 10 ∧ (10 : ℚ) ≤ max 10 7 ∧ min (10 : ℚ) 7 ≤ max (10 : ℚ) 7 ∧
     (updateProductPrice prodFlat 7).currentPrice = some 7) :=
  ⟨rfl, rfl, bounds_update_spec prodFlat 10 10 7 rfl rfl (by norm_num) (by norm_num)⟩
